import Mathlib

/-!
Shallow embedding of the vegetables ASRS digital-twin orchestrator
(the multi-robot "swarm" store in `src/App.tsx` together with
`src/utils/textParser.ts` and the data model of `src/types/index.ts`).

JavaScript strings are modelled as `String` / `List Char`; the regex
operations of the source (`split(/[,.;]/)`, `split(/\s+/)`,
`/(no|not|don't|dont|never|hate)/.test`, `parseInt`) are translated by
explicit character-list functions with the same observable behaviour.
`uuidv4()` identifiers are never compared or inspected by the logic, so
they are modelled by deterministic numeric ids (0 where the id is unused,
the generation index inside `generateInventory`).
-/

/-- `VegetableType` from `types/index.ts`: the closed 6-kind catalog. -/
inductive VegetableType
  | Tomato
  | Lettuce
  | Carrot
  | Eggplant
  | Corn
  | Onion
deriving DecidableEq, Repr

/-- `GridPosition` from `types/index.ts`. -/
structure GridPosition where
  x : Int
  y : Int
  z : Int
deriving DecidableEq, Repr

/-- `VegetableBox` from `types/index.ts`. -/
structure VegetableBox where
  id : Nat
  type : VegetableType
  position : GridPosition
deriving DecidableEq, Repr

/-- `Order` status union from `types/index.ts`. -/
inductive OrderStatus
  | pending
  | processing
  | completed
deriving DecidableEq, Repr

/-- `Order` from `types/index.ts`. -/
structure Order where
  id : Nat
  items : List VegetableType
  status : OrderStatus
deriving DecidableEq, Repr

/-- `SystemStatus` union from `types/index.ts`. -/
inductive SystemStatus
  | IDLE
  | MOVING
  | PICKING
  | DELIVERING
  | RETURNING
  | MOVING_TO_PICK
deriving DecidableEq, Repr

/-- `RobotState` from `types/index.ts`. -/
structure RobotState where
  id : String
  position : GridPosition
  target : Option GridPosition
  status : SystemStatus
  heldItem : Option VegetableBox
  highwayLaneZ : Int
  color : String
deriving DecidableEq, Repr

/-- Chat sender tag (`'user' | 'bot'`). -/
inductive Sender
  | user
  | bot
deriving DecidableEq, Repr

/-- `ChatMessage` from `useStore.ts`. -/
structure ChatMessage where
  id : Nat
  sender : Sender
  text : String
deriving DecidableEq, Repr

/-- `PendingItem` from `useStore.ts` (a shortage record). -/
structure PendingItem where
  type : VegetableType
  requested : Nat
  available : Nat
deriving DecidableEq, Repr

/-- The TypeScript string literal of a `VegetableType` tag. -/
def vegName : VegetableType → String
  | .Tomato => "Tomato"
  | .Lettuce => "Lettuce"
  | .Carrot => "Carrot"
  | .Eggplant => "Eggplant"
  | .Corn => "Corn"
  | .Onion => "Onion"

/-- The catalog list `VEGETABLES` of `textParser.ts`. -/
def VEGETABLES : List VegetableType :=
  [.Tomato, .Lettuce, .Carrot, .Eggplant, .Corn, .Onion]

/-- `v.toLowerCase()` of a catalog name, as a character list. -/
def vegLowerChars (v : VegetableType) : List Char :=
  (vegName v).toList.map Char.toLower

/-!  ## Character-level models of the JavaScript string operations  -/

/-- Characters matched by the separator class in `split(/[,.;]/)`. -/
def isPunctChar (c : Char) : Bool := c = ',' || c = '.' || c = ';'

/-- Whitespace characters, for `split(/\s+/)` and `parseInt` skipping. -/
def isSpaceChar (c : Char) : Bool := c = ' ' || c = '\t' || c = '\n' || c = '\r'

/-- `text.split(/[,.;]/)`: every matching character is a separator and
empty pieces are kept, exactly as in JavaScript. -/
def splitOnPred (p : Char → Bool) : List Char → List (List Char)
  | [] => [[]]
  | c :: cs =>
    if p c then [] :: splitOnPred p cs
    else
      match splitOnPred p cs with
      | [] => [[c]]
      | w :: ws => (c :: w) :: ws

/-- `phrase.split(/\s+/)`: maximal whitespace runs are separators; a run
touching either end of the string yields an empty piece there, exactly as
in JavaScript.  A whitespace character opens a new piece only when it is
the last character of its run. -/
def splitWsRuns : List Char → List (List Char)
  | [] => [[]]
  | c :: cs =>
    let r := splitWsRuns cs
    if isSpaceChar c then
      match cs with
      | c2 :: _ => if isSpaceChar c2 then r else [] :: r
      | [] => [] :: r
    else
      match r with
      | [] => [[c]]
      | w :: ws => (c :: w) :: ws

/-- Substring containment, the semantics of `/(tok)/.test(s)` for a
literal alternative `tok`. -/
def containsSub (needle : List Char) : List Char → Bool
  | [] => needle.isEmpty
  | c :: cs => needle.isPrefixOf (c :: cs) || containsSub needle cs

/-- The apostrophe character (code point 39). -/
def apos : Char := Char.ofNat 39

/-- The fixed alternatives of the negation regex
`/(no|not|don't|dont|never|hate)/` in `parseUserOrder`. -/
def negationTokens : List (List Char) :=
  [['n', 'o'], ['n', 'o', 't'], ['d', 'o', 'n', apos, 't'],
   ['d', 'o', 'n', 't'], ['n', 'e', 'v', 'e', 'r'], ['h', 'a', 't', 'e']]

/-- `/(no|not|don't|dont|never|hate)/.test(phrase)`. -/
def containsNegation (phrase : List Char) : Bool :=
  negationTokens.any (fun t => containsSub t phrase)

/-- Digit run value for `parseInt`: `none` when no leading digit. -/
def takeDigitsVal (cs : List Char) : Option Nat :=
  let ds := cs.takeWhile Char.isDigit
  if ds.isEmpty then none
  else some (ds.foldl (fun n c => n * 10 + (c.toNat - 48)) 0)

/-- JavaScript `parseInt(word)` (decimal): skip leading whitespace, read
an optional sign and then a leading digit run, ignoring trailing
characters; `none` models `NaN`. -/
def jsParseInt (w : List Char) : Option Int :=
  let cs := w.dropWhile isSpaceChar
  match cs with
  | '-' :: rest => (takeDigitsVal rest).map (fun n => -(n : Int))
  | '+' :: rest => (takeDigitsVal rest).map (fun n => (n : Int))
  | _ => (takeDigitsVal cs).map (fun n => (n : Int))

/-!  ## `textParser.ts`  -/

/-- `levenshteinDistance` of `textParser.ts`: one row of the DP matrix is
computed from the previous row (`diag` is `matrix[i-1][j-1]`, the head of
`rest` is `matrix[i-1][j]`, `left` is `matrix[i][j-1]`). -/
def levRowAux (bc : Char) : List Char → Nat → List Nat → Nat → List Nat
  | [], _, _, _ => []
  | ac :: as_, diag, rest, left =>
    let up := rest.headD 0
    let cell := if bc = ac then diag else 1 + min diag (min left up)
    cell :: levRowAux bc as_ up rest.tail cell

/-- Row `i` of the Levenshtein matrix (first entry `matrix[i][0] = i`). -/
def levRow (bc : Char) (aChars : List Char) (prev : List Nat) (i : Nat) : List Nat :=
  i :: levRowAux bc aChars (prev.headD 0) prev.tail i

/-- `levenshteinDistance(a, b)` of `textParser.ts`: the classic
single-character-edit (insertion/deletion/substitution, cost 1) DP,
returning `matrix[b.length][a.length]`. -/
def levenshteinDistance (a b : List Char) : Nat :=
  let row0 := List.range (a.length + 1)
  let last := (b.foldl (fun (st : Nat × List Nat) bc =>
    (st.1 + 1, levRow bc a st.2 (st.1 + 1))) (0, row0)).2
  last.getLastD 0

/-- `findClosestVegetable(word)` of `textParser.ts`: exact
case-insensitive match (with or without a trailing `s`) first, otherwise
the best fuzzy match at distance strictly below 3. -/
def findClosestVegetable (word : List Char) : Option VegetableType :=
  let lower := word.map Char.toLower
  match VEGETABLES.find? (fun v =>
      vegLowerChars v == lower || vegLowerChars v ++ ['s'] == lower) with
  | some exact => some exact
  | none =>
    (VEGETABLES.foldl (fun (acc : Option VegetableType × Nat) v =>
      let dist := min (levenshteinDistance (vegLowerChars v) lower)
                      (levenshteinDistance (vegLowerChars v ++ ['s']) lower)
      if dist < acc.2 then (some v, dist) else acc)
      ((none : Option VegetableType), 3)).1

/-- The token scan of `parseUserOrder`: walk the word list; at a positive
integer look ahead one then two words for a vegetable; on a match emit
`(type, count)` and additionally skip the next word. -/
def scanWords : List (List Char) → List (VegetableType × Nat)
  | [] => []
  | w :: rest =>
    match jsParseInt w with
    | some num =>
      if 0 < num then
        match rest with
        | [] => []
        | w1 :: rest2 =>
          let foundType :=
            match findClosestVegetable w1 with
            | some t => some t
            | none =>
              match rest2 with
              | w2 :: _ => findClosestVegetable w2
              | [] => none
          match foundType with
          | some t => (t, num.toNat) :: scanWords rest2
          | none => scanWords (w1 :: rest2)
      else scanWords rest
    | none => scanWords rest

/-- `parseUserOrder(text)` of `textParser.ts`: lowercase, split into
phrases on `[,.;]`, drop any phrase containing a negation token, and scan
the remaining phrases for `number (word | _ word)` pairs. -/
def parseUserOrder (text : String) : List (VegetableType × Nat) :=
  let cleanText := text.toList.map Char.toLower
  let phrases := splitOnPred isPunctChar cleanText
  phrases.foldl (fun orders phrase =>
    if containsNegation phrase then orders
    else orders ++ scanWords (splitWsRuns phrase)) []

/-!  ## The swarm store (`useStore.ts`, multi-robot version)  -/

/-- The whole zustand store state (presentational fields included). -/
structure StoreState where
  inventory : List VegetableBox
  orders : List Order
  deliveredItems : List VegetableBox
  taskQueue : List VegetableType
  chatHistory : List ChatMessage
  pendingConfirmation : Option (List PendingItem)
  robots : List RobotState
  logs : List String
  viewMode : String
  systemStatus : String
deriving DecidableEq, Repr

/-- `DELIVERY_ZONE` of `useStore.ts`. -/
def DELIVERY_ZONE : GridPosition := { x := 0, y := 0, z := 5 }

/-- One entry of `ROBOT_CONFIGS`. -/
structure RobotConfig where
  id : String
  lane : Int
  color : String
  home : GridPosition

/-- `ROBOT_CONFIGS` of `useStore.ts`. -/
def ROBOT_CONFIGS : List RobotConfig :=
  [ { id := "R1", lane := -2, color := "#2196f3", home := { x := -5, y := 5, z := 5 } },
    { id := "R2", lane := -4, color := "#e91e63", home := { x := 0, y := 5, z := 5 } },
    { id := "R3", lane := -6, color := "#ff9800", home := { x := 5, y := 5, z := 5 } } ]

/-- The robot roster built from `ROBOT_CONFIGS` (used at initialization
and by `resetSystem`). -/
def freshRobots : List RobotState :=
  ROBOT_CONFIGS.map (fun cfg =>
    { id := cfg.id, position := cfg.home, target := none, status := .IDLE,
      heldItem := none, highwayLaneZ := cfg.lane, color := cfg.color })

/-- `generateInventory()` of `useStore.ts`: 6 pallets (one per type,
`baseX = (index - 2.5) * 4`), 10 boxes per type in 2-wide-by-2-deep
layers.  Box ids are modelled by the deterministic generation index. -/
def generateInventory : List VegetableBox :=
  VEGETABLES.enum.flatMap (fun iv =>
    (List.range 10).map (fun i =>
      let baseX : Int := (iv.1 : Int) * 4 - 10
      let layer : Nat := i / 4
      let remainder : Nat := i % 4
      let dx : Nat := remainder % 2
      let dz : Nat := remainder / 2
      { id := 10 * iv.1 + i,
        type := iv.2,
        position := { x := baseX + (dx : Int), y := (layer : Int), z := (dz : Int) } }))

/-- `countInventory` of `useStore.ts`. -/
def countInventory (inventory : List VegetableBox) (type : VegetableType) : Nat :=
  (inventory.filter (fun b => b.type == type)).length

/-- A bot chat message (`uuidv4()` ids are modelled as 0). -/
def botMsg (text : String) : ChatMessage := { id := 0, sender := .bot, text := text }

/-- A user chat message. -/
def userMsg (text : String) : ChatMessage := { id := 0, sender := .user, text := text }

/-- `addLog` of `useStore.ts`: prepend, keep the most recent 50. -/
def addLog (msg : String) (s : StoreState) : StoreState :=
  { s with logs := (msg :: s.logs).take 50 }

/-- Does robot `r`'s target occupy box `b`'s (x, z) column?  This is the
exclusion test of `checkNextTask`
(`r.target?.x === b.position.x && r.target?.z === b.position.z`);
note it does not compare the y coordinate. -/
def targetsBoxColumn (r : RobotState) (b : VegetableBox) : Bool :=
  match r.target with
  | some t => t.x == b.position.x && t.z == b.position.z
  | none => false

/-- The filtered stock candidates of `checkNextTask` step 1. -/
def schedCandidates (s : StoreState) (t : VegetableType) : List VegetableBox :=
  s.inventory.filter (fun b => b.type == t && !(s.robots.any (fun r => targetsBoxColumn r b)))

/-- The first element of a JavaScript stable `sort` with comparator
order `le` (`le a b` means the comparator does not place `b` strictly
before `a`).  The source only ever reads element `[0]` of its sorts, so
that element is computed directly: it is the earliest element of the
minimal comparator class, which is what a stable sort puts first. -/
def jsSortFirst {α : Type} (le : α → α → Bool) : List α → Option α
  | [] => none
  | a :: t =>
    match jsSortFirst le t with
    | none => some a
    | some b => if le a b then some a else some b

/-- `candidateBox` of `checkNextTask`: stable sort by descending y
(`(a, b) => b.position.y - a.position.y`), then the first element. -/
def schedCandidateBox (s : StoreState) (t : VegetableType) : Option VegetableBox :=
  jsSortFirst (fun a b => decide (b.position.y ≤ a.position.y)) (schedCandidates s t)

/-- The Manhattan distance on the x/z plane used by the auction. -/
def manhattanXZ (p q : GridPosition) : Nat :=
  (p.x - q.x).natAbs + (p.z - q.z).natAbs

/-- The robots with status IDLE (`checkNextTask` step 2). -/
def idleRobotsOf (s : StoreState) : List RobotState :=
  s.robots.filter (fun r => r.status == .IDLE)

/-- `bestRobot` of `checkNextTask`: stable sort of the idle robots by
ascending Manhattan x/z distance to the candidate box, then the first
element (`none` exactly when no robot is idle). -/
def schedBestRobot (s : StoreState) (box : VegetableBox) : Option RobotState :=
  jsSortFirst (fun a b =>
    decide (manhattanXZ a.position box.position ≤ manhattanXZ b.position box.position))
    (idleRobotsOf s)

/-- `checkNextTask` of `useStore.ts`.  The recursion (skip an
unserviceable entry; keep assigning during a burst) always proceeds on
the popped queue, so the queue length is the recursion measure; it is
passed explicitly as structural fuel so that the definition computes.
With fuel equal to the queue length (as in `checkNextTask` below) the
fuel never runs out. -/
def checkNextTaskAux : Nat → StoreState → StoreState
  | 0, s => s
  | fuel + 1, s =>
    match s.taskQueue with
    | [] => s
    | nextItemType :: rest =>
      match schedCandidateBox s nextItemType with
      | none =>
        let s1 := addLog ("Error: Out of stock for " ++ vegName nextItemType ++ "! Skipping.") s
        let s2 := { s1 with taskQueue := rest }
        checkNextTaskAux fuel s2
      | some candidateBox =>
        match schedBestRobot s candidateBox with
        | none => s
        | some bestRobot =>
          let updatedRobots := s.robots.map (fun r =>
            if r.id == bestRobot.id then
              { r with target := some candidateBox.position,
                       status := SystemStatus.MOVING_TO_PICK }
            else r)
          let s1 := { s with robots := updatedRobots, taskQueue := rest }
          let s2 := addLog ("AUCTION: Robot " ++ bestRobot.id ++ " won task " ++
            vegName nextItemType ++ ". Moving to [" ++ toString candidateBox.position.x ++
            ", " ++ toString candidateBox.position.z ++ "]") s1
          if updatedRobots.any (fun r => r.status == SystemStatus.IDLE) &&
              decide (1 < s.taskQueue.length) then
            checkNextTaskAux fuel s2
          else s2

/-- `checkNextTask` entry point. -/
def checkNextTask (s : StoreState) : StoreState :=
  checkNextTaskAux s.taskQueue.length s

/-- `placeOrder(items)` of `useStore.ts`. -/
def placeOrder (items : List VegetableType) (s : StoreState) : StoreState :=
  let order : Order := { id := 0, items := items, status := .pending }
  let s1 := { s with orders := s.orders ++ [order], taskQueue := s.taskQueue ++ items }
  let s2 := addLog ("Order received: " ++ String.intercalate ", " (items.map vegName)) s1
  if s2.robots.any (fun r => r.status == .IDLE) then checkNextTask s2 else s2

/-- The two resolution actions of `resolvePendingOrder`. -/
inductive ResolveAction
  | PROCEED
  | SCRATCH
deriving DecidableEq, Repr

/-- `resolvePendingOrder(action)` of `useStore.ts`. -/
def resolvePendingOrder (action : ResolveAction) (s : StoreState) : StoreState :=
  match s.pendingConfirmation with
  | none => s
  | some pending =>
    let s1 :=
      match action with
      | .PROCEED =>
        let itemsToAdd := pending.flatMap (fun p => List.replicate p.available p.type)
        if 0 < itemsToAdd.length then
          let s2 := placeOrder itemsToAdd s
          { s2 with chatHistory := s2.chatHistory ++
              [botMsg ("Understood. Bringing " ++ toString itemsToAdd.length ++ " items we have.")] }
        else
          { s with chatHistory := s.chatHistory ++
              [botMsg "Actually, we have 0 of those. Scratched."] }
      | .SCRATCH =>
        { s with chatHistory := s.chatHistory ++ [botMsg "Okay, scratched those items."] }
    { s1 with pendingConfirmation := none }

/-- `totalsRequested` of `sendUserMessage`: per-type aggregation of the
parsed pairs, keyed in first-encounter order (the iteration order of
`Object.entries` on the record). -/
def aggregateTotals (validOrders : List (VegetableType × Nat)) : List (VegetableType × Nat) :=
  validOrders.foldl (fun acc tc =>
    if acc.any (fun p => p.1 == tc.1) then
      acc.map (fun p => if p.1 == tc.1 then (p.1, p.2 + tc.2) else p)
    else acc ++ [tc]) []

/-- The stock-validation loop of `sendUserMessage` step 4: expand each
fully satisfiable type into unit entries, record each shortage. -/
def computeOrderSplit (inv : List VegetableBox) (totals : List (VegetableType × Nat)) :
    List VegetableType × List PendingItem :=
  totals.foldl (fun acc tc =>
    let available := countInventory inv tc.1
    if tc.2 ≤ available then
      (acc.1 ++ List.replicate tc.2 tc.1, acc.2)
    else
      (acc.1, acc.2 ++ [{ type := tc.1, requested := tc.2, available := available }]))
    ([], [])

/-- The bot reply asking to repeat a valid resolution token. -/
def repeatMsg : String := "Please say \"Proceed\" or \"Scratch\"."

/-- The bot reply for unparseable input (apostrophe spelled out). -/
def didntCatchMsg : String :=
  "I didn" ++ apos.toString ++ "t catch that. Try saying \"I want 5 tomatoes\"."

/-- `sendUserMessage(text)` of `useStore.ts`. -/
def sendUserMessage (text : String) (s : StoreState) : StoreState :=
  let s0 := { s with chatHistory := s.chatHistory ++ [userMsg text] }
  match s.pendingConfirmation with
  | some _ =>
    let lower := text.toList.map Char.toLower
    if containsSub "proceed".toList lower || containsSub "yes".toList lower ||
        containsSub "bring".toList lower then
      resolvePendingOrder .PROCEED s0
    else if containsSub "scratch".toList lower || containsSub "no".toList lower ||
        containsSub "cancel".toList lower then
      resolvePendingOrder .SCRATCH s0
    else
      { s0 with chatHistory := s0.chatHistory ++ [botMsg repeatMsg] }
  | none =>
    let validOrders := parseUserOrder text
    let s1 := addLog ("NLP: Parsed " ++ toString validOrders.length ++
      " valid orders from input.") s0
    if validOrders.length == 0 then
      let s2 := addLog "NLP: Failed to extract any valid orders." s1
      { s2 with chatHistory := s2.chatHistory ++ [botMsg didntCatchMsg] }
    else
      let totals := aggregateTotals validOrders
      let split := computeOrderSplit s1.inventory totals
      let validItemsToOrder := split.1
      let pendingCheck := split.2
      if 0 < pendingCheck.length then
        let shortageMsg := String.intercalate "; " (pendingCheck.map (fun p =>
          vegName p.type ++ ": wanted " ++ toString p.requested ++ ", have " ++
          toString p.available))
        let s2 := { s1 with
          chatHistory := s1.chatHistory ++ [botMsg ("Stock shortage for: " ++ shortageMsg ++
            ". Should we PROCEED with available items or SCRATCH these?")],
          pendingConfirmation := some pendingCheck }
        if 0 < validItemsToOrder.length then
          let s3 := placeOrder validItemsToOrder s2
          { s3 with chatHistory := s3.chatHistory ++
              [botMsg ("(Ordering " ++ toString validItemsToOrder.length ++ " available items...)")] }
        else s2
      else
        let s3 := placeOrder validItemsToOrder s1
        { s3 with chatHistory := s3.chatHistory ++
            [botMsg ("Ordering " ++ toString validItemsToOrder.length ++ " items. On it!")] }

/-- `resetSystem()` of `useStore.ts`: rebuild the whole in-memory state
(viewMode and systemStatus are not listed in the `set` and persist). -/
def resetSystem (s : StoreState) : StoreState :=
  { s with
    inventory := generateInventory
    orders := []
    deliveredItems := []
    taskQueue := []
    chatHistory := [botMsg "System Reset. Ready for new orders."]
    pendingConfirmation := none
    robots := freshRobots
    logs := ["System Reset Initiated."] }

/-- `initInventory()` of `useStore.ts`: regenerate the inventory and
reset the log; nothing else is written. -/
def initInventory (s : StoreState) : StoreState :=
  { s with inventory := generateInventory, logs := ["System Initialized. Inventory Scanned."] }

/-- The exact-position predicate of the pick lookup in
`robotArrivedAtTarget`. -/
def pickPredicate (tgt : GridPosition) (b : VegetableBox) : Bool :=
  b.position.x == tgt.x && b.position.y == tgt.y && b.position.z == tgt.z

/-- `robotArrivedAtTarget(robotId)` of `useStore.ts`. -/
def robotArrivedAtTarget (robotId : String) (s : StoreState) : StoreState :=
  match s.robots.findIdx? (fun r => r.id == robotId) with
  | none => s
  | some robotIndex =>
    match s.robots[robotIndex]? with
    | none => s
    | some robot =>
      if robot.status == .MOVING_TO_PICK then
        match robot.target with
        | none => s
        | some tgt =>
          match s.inventory.find? (pickPredicate tgt) with
          | none =>
            let s1 := addLog ("Error: Box gone when Robot " ++ robotId ++
              " arrived! Retrying...") s
            let updatedRobots := s1.robots.set robotIndex
              { robot with status := .IDLE, target := none }
            let s2 := { s1 with robots := updatedRobots }
            checkNextTask s2
          | some box =>
            let newInventory := s.inventory.eraseP (pickPredicate tgt)
            let updatedRobots := s.robots.set robotIndex
              { robot with
                heldItem := some box
                status := .DELIVERING
                target := some DELIVERY_ZONE }
            let s1 := { s with inventory := newInventory, robots := updatedRobots }
            addLog ("Robot " ++ robotId ++ " picked up " ++ vegName box.type ++
              ". Delivering...") s1
      else if robot.status == .DELIVERING then
        match robot.heldItem with
        | none => s
        | some held =>
          let updatedRobots := s.robots.set robotIndex
            { robot with heldItem := none, status := .IDLE, target := none }
          let s1 := { s with
            deliveredItems := s.deliveredItems ++ [held]
            robots := updatedRobots }
          let s2 := addLog ("Robot " ++ robotId ++ " delivered " ++ vegName held.type ++ ".") s1
          checkNextTask s2
      else if robot.status == .RETURNING then
        let updatedRobots := s.robots.set robotIndex
          { robot with status := .IDLE, target := none }
        { s with robots := updatedRobots }
      else s

/-- The inbound operations of the store (§6 of the design). -/
inductive Op
  | initInventory
  | placeOrder (items : List VegetableType)
  | sendUserMessage (text : String)
  | resolvePendingOrder (action : ResolveAction)
  | checkNextTask
  | robotArrivedAtTarget (robotId : String)
  | resetSystem

/-- Apply one inbound operation. -/
def applyOp (s : StoreState) : Op → StoreState
  | .initInventory => initInventory s
  | .placeOrder items => placeOrder items s
  | .sendUserMessage text => sendUserMessage text s
  | .resolvePendingOrder action => resolvePendingOrder action s
  | .checkNextTask => checkNextTask s
  | .robotArrivedAtTarget robotId => robotArrivedAtTarget robotId s
  | .resetSystem => resetSystem s

/-- The initial zustand state of the store (`create(...)`). -/
def initialState : StoreState :=
  { inventory := []
    orders := []
    deliveredItems := []
    taskQueue := []
    chatHistory := [botMsg "Swarm Online. 3 Robots Ready. Waiting for orders."]
    pendingConfirmation := none
    robots := freshRobots
    logs := []
    viewMode := "ORBIT"
    systemStatus := "OPERATIONAL" }

/-- Run a sequence of inbound operations. -/
def runOps (s : StoreState) (ops : List Op) : StoreState := ops.foldl applyOp s

/-!  ## Derived predicates and spec-modelled comparison definitions  -/

/-- Number of queue entries of a given type. -/
def countVeg (l : List VegetableType) (t : VegetableType) : Nat :=
  (l.filter (fun x => x == t)).length

/-- The boxes currently held by agents. -/
def heldBoxes (s : StoreState) : List VegetableBox :=
  s.robots.filterMap (fun r => r.heldItem)

/-- The multiset of box ids across inventory, held items and the
delivered list. -/
def boxIds (s : StoreState) : Multiset Nat :=
  (↑(s.inventory.map (fun b => b.id)) : Multiset Nat) +
  (↑((heldBoxes s).map (fun b => b.id)) : Multiset Nat) +
  (↑(s.deliveredItems.map (fun b => b.id)) : Multiset Nat)

/-- No agent that is idle or moving to pick holds an item.  This holds
in every reachable state: items are attached only on a successful pick
(which sets status DELIVERING) and detached on delivery. -/
def HeldOk (s : StoreState) : Prop :=
  ∀ r ∈ s.robots, (r.status = .MOVING_TO_PICK ∨ r.status = .IDLE) → r.heldItem = none

instance (s : StoreState) : Decidable (HeldOk s) := by
  unfold HeldOk
  infer_instance

/-- The roster discipline needed to push conservation through runs:
held items only on delivering robots, distinct robot ids, and only the
three statuses that the store ever assigns. -/
def SaneRobots (s : StoreState) : Prop :=
  HeldOk s ∧ s.robots.Pairwise (fun a b => a.id ≠ b.id) ∧
  ∀ r ∈ s.robots, r.status = .IDLE ∨ r.status = .MOVING_TO_PICK ∨ r.status = .DELIVERING

/-- The operations that stay inside one reset epoch (everything except
`initInventory` and `resetSystem`, which regenerate the inventory). -/
def epochOp : Op → Prop
  | .initInventory => False
  | .resetSystem => False
  | _ => True

instance : DecidablePred epochOp := fun op => by
  cases op <;> simp only [epochOp] <;> infer_instance

/-- Per-robot status/target discipline maintained by the store: an idle
robot has no target, a delivering robot targets the delivery zone, and a
picking robot targets a rack cell (z = 0 or 1, as all generated boxes
sit at z 0 or 1); only these three statuses ever occur. -/
def StatusTargetOk (r : RobotState) : Prop :=
  (r.status = .IDLE → r.target = none) ∧
  (r.status = .DELIVERING → r.target = some DELIVERY_ZONE) ∧
  (r.status = .MOVING_TO_PICK → ∀ t, r.target = some t → t.z = 0 ∨ t.z = 1) ∧
  (r.status = .IDLE ∨ r.status = .MOVING_TO_PICK ∨ r.status = .DELIVERING)

/-- Two picking robots never target the same (x, z) column. -/
def ColOk (r r' : RobotState) : Prop :=
  r.status = .MOVING_TO_PICK → r'.status = .MOVING_TO_PICK →
    ∀ t t', r.target = some t → r'.target = some t' → t.x ≠ t'.x ∨ t.z ≠ t'.z

/-- The inductive invariant behind the no-double-booking property. -/
def InvC1 (s : StoreState) : Prop :=
  (∀ r ∈ s.robots, StatusTargetOk r) ∧
  (∀ b ∈ s.inventory, b.position.z = 0 ∨ b.position.z = 1) ∧
  s.robots.Pairwise (fun a b => a.id ≠ b.id) ∧
  s.robots.Pairwise ColOk

/-- Modelled from the claim, for comparison with `schedCandidates`: the
inventory boxes of the requested type that are not exactly the target of
any currently assigned (non-idle) agent. -/
def specCandidates (s : StoreState) (t : VegetableType) : List VegetableBox :=
  s.inventory.filter (fun b => b.type == t &&
    !(s.robots.any (fun r => !(r.status == .IDLE) && r.target == some b.position)))

/-- Modelled from the claim, for comparison with `negationTokens`: the
negation token set exactly as the specification lists it ("no", "not",
"don't", "never", "hate"), without the code's extra "dont" alternative. -/
def specNegationTokens : List (List Char) :=
  [['n', 'o'], ['n', 'o', 't'], ['d', 'o', 'n', apos, 't'],
   ['n', 'e', 'v', 'e', 'r'], ['h', 'a', 't', 'e']]

/-- The claim-side negation test. -/
def containsNegationSpec (phrase : List Char) : Bool :=
  specNegationTokens.any (fun t => containsSub t phrase)

/-- Modelled from the claim, for comparison with `parseUserOrder`: the
same parser with the claim's five-token negation set. -/
def parseUserOrderSpec (text : String) : List (VegetableType × Nat) :=
  let cleanText := text.toList.map Char.toLower
  let phrases := splitOnPred isPunctChar cleanText
  phrases.foldl (fun orders phrase =>
    if containsNegationSpec phrase then orders
    else orders ++ scanWords (splitWsRuns phrase)) []

/-!  ## Concrete states for witnesses and counterexamples  -/

/-- A reachable run: reset, order two tomatoes, both assigned robots
arrive at their picks. -/
def opsC1 : List Op :=
  [.resetSystem, .placeOrder [.Tomato, .Tomato],
   .robotArrivedAtTarget "R1", .robotArrivedAtTarget "R2"]

/-- The state reached by `opsC1`. -/
def sC1 : StoreState := runOps initialState opsC1

/-- Robot R1 in `sC1`: delivering its tomato to the delivery zone. -/
def rC1a : RobotState :=
  { id := "R1"
    position := { x := -5, y := 5, z := 5 }
    target := some DELIVERY_ZONE
    status := .DELIVERING
    heldItem := some { id := 8, type := .Tomato, position := { x := -10, y := 2, z := 0 } }
    highwayLaneZ := -2
    color := "#2196f3" }

/-- Robot R2 in `sC1`: delivering its tomato to the delivery zone. -/
def rC1b : RobotState :=
  { id := "R2"
    position := { x := 0, y := 5, z := 5 }
    target := some DELIVERY_ZONE
    status := .DELIVERING
    heldItem := some { id := 9, type := .Tomato, position := { x := -9, y := 2, z := 0 } }
    highwayLaneZ := -4
    color := "#e91e63" }

/-- Epoch operations for the C2 witness: order one tomato and let the
assigned robot arrive at its pick. -/
def opsC2w : List Op := [.placeOrder [.Tomato], .robotArrivedAtTarget "R1"]

/-- A box that a malformed state lets a picking robot hold. -/
def ghostBox : VegetableBox :=
  { id := 999, type := .Corn, position := { x := 3, y := 0, z := 1 } }

/-- The box sitting at the malformed picker's target. -/
def pickedBoxC2 : VegetableBox :=
  { id := 0, type := .Tomato, position := { x := -10, y := 0, z := 0 } }

/-- The malformed picker of the C2 counterexample: it already holds an
item while moving to pick. -/
def rC2bad : RobotState :=
  { id := "R1"
    position := { x := 0, y := 5, z := 5 }
    target := some { x := -10, y := 0, z := 0 }
    status := .MOVING_TO_PICK
    heldItem := some ghostBox
    highwayLaneZ := -2
    color := "#2196f3" }

/-- A state outside the reachable set: a MOVING_TO_PICK robot already
holds an item, which the pick overwrites. -/
def sC2bad : StoreState :=
  { initialState with inventory := [pickedBoxC2], robots := [rC2bad] }

/-- The single box of the C4 counterexample state: in the (x, z) column
of robot R1's target but not itself targeted by anyone. -/
def bC4 : VegetableBox :=
  { id := 0, type := .Tomato, position := { x := 1, y := 1, z := 1 } }

/-- The picking robot of the C4 counterexample: its target shares the
(x, z) column of `bC4` without being `bC4`'s position. -/
def rC4a : RobotState :=
  { id := "R1"
    position := { x := 0, y := 5, z := 5 }
    target := some { x := 1, y := 2, z := 1 }
    status := .MOVING_TO_PICK
    heldItem := none
    highwayLaneZ := -2
    color := "#2196f3" }

/-- The idle robot of the C4 counterexample. -/
def rC4b : RobotState :=
  { id := "R2"
    position := { x := 0, y := 5, z := 5 }
    target := none
    status := .IDLE
    heldItem := none
    highwayLaneZ := -4
    color := "#e91e63" }

/-- C4 counterexample state: a tomato task is queued, an idle robot is
available, and the only tomato box is free of any agent's target - but
it shares its (x, z) column with R1's target. -/
def sC4 : StoreState :=
  { initialState with inventory := [bC4], taskQueue := [.Tomato], robots := [rC4a, rC4b] }

/-- A dirty state for the C8 counterexample: a task is still queued. -/
def sC8 : StoreState := { initialState with taskQueue := [.Corn] }

/-- A roster with every robot busy (used so that `placeOrder` appends to
the queue without scheduling). -/
def busyRobots : List RobotState :=
  freshRobots.map (fun r => { r with status := .DELIVERING, target := some DELIVERY_ZONE })

/-- C3 witness state: full inventory, no idle robot. -/
def sC3 : StoreState :=
  { initialState with inventory := generateInventory, robots := busyRobots }

/-- The C3 witness state after requesting 15 tomatoes (10 in stock). -/
def spC3 : StoreState := sendUserMessage "i want 15 tomatoes" sC3

/-- C7 witness state: full inventory, a corn task queued, all idle. -/
def sC7 : StoreState :=
  { initialState with inventory := generateInventory, taskQueue := [.Corn] }

/-- The top-of-stack corn box in `generateInventory`. -/
def cornTopC7 : VegetableBox :=
  { id := 48, type := .Corn, position := { x := 6, y := 2, z := 0 } }

/-- The nearest idle robot to `cornTopC7` in `sC7`. -/
def rC7 : RobotState :=
  { id := "R3"
    position := { x := 5, y := 5, z := 5 }
    target := none
    status := .IDLE
    heldItem := none
    highwayLaneZ := -6
    color := "#ff9800" }

/-- A box not at the C9 witness robot's target. -/
def boxC9 : VegetableBox :=
  { id := 7, type := .Lettuce, position := { x := 2, y := 0, z := 0 } }

/-- The C9 witness robot: moving to pick a position holding no box. -/
def rC9 : RobotState :=
  { id := "R1"
    position := { x := 0, y := 5, z := 5 }
    target := some { x := 9, y := 9, z := 9 }
    status := .MOVING_TO_PICK
    heldItem := none
    highwayLaneZ := -2
    color := "#2196f3" }

/-- C9 witness state. -/
def sC9 : StoreState := { initialState with inventory := [boxC9], robots := [rC9] }

/-!  ## Generic helper lemmas  -/

/-- `jsSortFirst` is `none` exactly for the empty list. -/
theorem jsSortFirst_none {α : Type} {le : α → α → Bool} :
    ∀ {l : List α}, jsSortFirst le l = none ↔ l = []
  | [] => by simp [jsSortFirst]
  | a :: t => by
    simp only [jsSortFirst]
    constructor
    · intro h
      split at h
      · exact Option.noConfusion h
      · split at h <;> exact Option.noConfusion h
    · intro h
      exact List.noConfusion h

/-- `jsSortFirst` of a transitive total comparator returns a member that
the comparator places below every member of the list. -/
theorem jsSortFirst_least {α : Type} {le : α → α → Bool}
    (htrans : ∀ a b c, le a b → le b c → le a c)
    (htotal : ∀ a b, le a b || le b a) :
    ∀ {l : List α} {x : α}, jsSortFirst le l = some x → x ∈ l ∧ ∀ y ∈ l, le x y
  | [], x, h => by simp [jsSortFirst] at h
  | a :: t, x, h => by
    simp only [jsSortFirst] at h
    split at h
    next hrec =>
      injection h with h
      subst h
      have ht : t = [] := jsSortFirst_none.mp hrec
      subst ht
      refine ⟨List.mem_cons_self _ _, ?_⟩
      intro y hy
      simp only [List.mem_cons, List.not_mem_nil, or_false] at hy
      subst hy
      have := htotal y y
      simpa using this
    next b hrec =>
      obtain ⟨hbmem, hbmin⟩ := jsSortFirst_least htrans htotal hrec
      split at h
      next hab =>
        injection h with h
        subst h
        refine ⟨List.mem_cons_self _ _, ?_⟩
        intro y hy
        rcases List.mem_cons.mp hy with rfl | hyt
        · have := htotal y y
          simpa using this
        · exact htrans _ _ _ hab (hbmin y hyt)
      next hab =>
        injection h with h
        subst h
        have hxa : le b a = true := by
          have htot : le a b = true ∨ le b a = true := by simpa using htotal a b
          rcases htot with hh | hh
          · exact absurd hh hab
          · exact hh
        refine ⟨List.mem_cons_of_mem _ hbmem, ?_⟩
        intro y hy
        rcases List.mem_cons.mp hy with rfl | hyt
        · exact hxa
        · exact hbmin y hyt

/-- Setting an index back to the element already there is the identity. -/
theorem list_set_self {α : Type} : ∀ (l : List α) (i : Nat) (a : α),
    l[i]? = some a → l.set i a = l
  | [], _, _, h => by simp at h
  | b :: t, 0, a, h => by simp at h; simp [h]
  | b :: t, i + 1, a, h => by
    simp only [List.getElem?_cons_succ] at h
    simp [List.set_cons_succ, list_set_self t i a h]

/-- `Pairwise R` survives `set` when the new element is related to
everything in both directions. -/
theorem pairwise_set_of_rel {α : Type} {R : α → α → Prop} :
    ∀ {l : List α} (_ : l.Pairwise R) (i : Nat) {a : α}
      (_ : ∀ b, R a b) (_ : ∀ b, R b a), (l.set i a).Pairwise R
  | [], _, _, _, _, _ => by simp
  | b :: t, h, 0, a, ha, hb => by
    simp only [List.set_cons_zero]
    exact List.pairwise_cons.mpr ⟨fun y _ => ha y, (List.pairwise_cons.mp h).2⟩
  | b :: t, h, i + 1, a, ha, hb => by
    simp only [List.set_cons_succ]
    have hp := List.pairwise_cons.mp h
    refine List.pairwise_cons.mpr ⟨fun y hy => ?_, pairwise_set_of_rel hp.2 i ha hb⟩
    rcases List.mem_or_eq_of_mem_set hy with hmem | rfl
    · exact hp.1 y hmem
    · exact hb b

/-- `filterMap` after a `set` that stores `some x` where there was
`none`: one element is inserted, up to permutation. -/
theorem filterMap_set_none_some {α β : Type} {g : α → Option β} :
    ∀ {l : List α} {i : Nat} {a b : α} {x : β}, l[i]? = some a → g a = none →
      g b = some x → List.Perm ((l.set i b).filterMap g) (x :: l.filterMap g)
  | [], i, a, b, x, h, _, _ => by simp at h
  | c :: t, 0, a, b, x, h, hga, hgb => by
    simp only [List.getElem?_cons_zero, Option.some.injEq] at h
    subst h
    simp [List.filterMap_cons, hga, hgb]
  | c :: t, i + 1, a, b, x, h, hga, hgb => by
    simp only [List.getElem?_cons_succ] at h
    have ih := filterMap_set_none_some (l := t) (i := i) h hga hgb
    simp only [List.set_cons_succ, List.filterMap_cons]
    cases g c with
    | none => exact ih
    | some y =>
      exact (ih.cons y).trans (List.Perm.swap x y _)

/-- `filterMap` after a `set` that clears a stored `some x` to `none`:
one element is removed, up to permutation. -/
theorem filterMap_set_some_none {α β : Type} {g : α → Option β} :
    ∀ {l : List α} {i : Nat} {a b : α} {x : β}, l[i]? = some a → g a = some x →
      g b = none → List.Perm (l.filterMap g) (x :: (l.set i b).filterMap g)
  | [], i, a, b, x, h, _, _ => by simp at h
  | c :: t, 0, a, b, x, h, hga, hgb => by
    simp only [List.getElem?_cons_zero, Option.some.injEq] at h
    subst h
    simp [List.filterMap_cons, hga, hgb]
  | c :: t, i + 1, a, b, x, h, hga, hgb => by
    simp only [List.getElem?_cons_succ] at h
    have ih := filterMap_set_some_none (l := t) (i := i) h hga hgb
    simp only [List.set_cons_succ, List.filterMap_cons]
    cases g c with
    | none => exact ih
    | some y =>
      exact (ih.cons y).trans (List.Perm.swap x y _)

/-- `filterMap` ignores a map that does not change the extracted field. -/
theorem filterMap_map_same {α β : Type} (l : List α) (f : α → α) (g : α → Option β)
    (hf : ∀ r, g (f r) = g r) : (l.map f).filterMap g = l.filterMap g := by
  induction l with
  | nil => rfl
  | cons a t ih => simp only [List.map_cons, List.filterMap_cons, hf a, ih]

/-!  ## Characterizations of the scheduler's selections  -/

/-- No candidate box is produced exactly when the filtered candidate
list is empty. -/
theorem schedCandidateBox_none_iff {s : StoreState} {t : VegetableType} :
    schedCandidateBox s t = none ↔ schedCandidates s t = [] := by
  unfold schedCandidateBox
  exact jsSortFirst_none

/-- The selected candidate box is a candidate of maximal y. -/
theorem schedCandidateBox_spec {s : StoreState} {t : VegetableType} {b : VegetableBox}
    (h : schedCandidateBox s t = some b) :
    b ∈ schedCandidates s t ∧ ∀ y ∈ schedCandidates s t, y.position.y ≤ b.position.y := by
  unfold schedCandidateBox at h
  have hres := jsSortFirst_least
    (fun a b c hab hbc => by
      simp only [decide_eq_true_eq] at hab hbc ⊢; omega)
    (fun a b => by
      rcases Int.le_total b.position.y a.position.y with hle | hle <;> simp [hle])
    h
  exact ⟨hres.1, fun y hy => by have := hres.2 y hy; simpa using this⟩

/-- Membership in the candidate list, spelled out. -/
theorem mem_schedCandidates {s : StoreState} {t : VegetableType} {b : VegetableBox} :
    b ∈ schedCandidates s t ↔
      b ∈ s.inventory ∧ b.type = t ∧ ∀ r ∈ s.robots, targetsBoxColumn r b = false := by
  simp [schedCandidates, List.mem_filter]

/-- A robot that does not block a box's column cannot target a position
in that column. -/
theorem targetsBoxColumn_false {r : RobotState} {b : VegetableBox}
    (h : targetsBoxColumn r b = false) :
    ∀ tg, r.target = some tg → ¬(tg.x = b.position.x ∧ tg.z = b.position.z) := by
  intro tg htg hc
  rw [targetsBoxColumn, htg] at h
  simp [hc.1, hc.2] at h

/-- Membership in the idle roster, spelled out. -/
theorem mem_idleRobotsOf {s : StoreState} {r : RobotState} :
    r ∈ idleRobotsOf s ↔ r ∈ s.robots ∧ r.status = .IDLE := by
  simp [idleRobotsOf, List.mem_filter]

/-- No best robot is produced exactly when no robot is idle. -/
theorem schedBestRobot_none_iff {s : StoreState} {box : VegetableBox} :
    schedBestRobot s box = none ↔ idleRobotsOf s = [] := by
  unfold schedBestRobot
  exact jsSortFirst_none

/-- The auction winner is an idle robot at minimal x/z Manhattan
distance to the candidate box. -/
theorem schedBestRobot_spec {s : StoreState} {box : VegetableBox} {r : RobotState}
    (h : schedBestRobot s box = some r) :
    r ∈ idleRobotsOf s ∧ ∀ r2 ∈ idleRobotsOf s,
      manhattanXZ r.position box.position ≤ manhattanXZ r2.position box.position := by
  unfold schedBestRobot at h
  have hres := jsSortFirst_least
    (fun a b c hab hbc => by
      simp only [decide_eq_true_eq] at hab hbc ⊢; omega)
    (fun a b => by
      rcases Nat.le_total (manhattanXZ a.position box.position)
        (manhattanXZ b.position box.position) with hle | hle <;> simp [hle])
    h
  exact ⟨hres.1, fun r2 hr2 => by have := hres.2 r2 hr2; simpa using this⟩

/-!  ## Frame lemmas  -/

/-- Scheduling touches only robot targets/statuses, the queue and the
log: inventory, delivered items, the pending latch and the held items
are unchanged. -/
theorem checkNextTaskAux_frame : ∀ (n : Nat) (s : StoreState),
    (checkNextTaskAux n s).inventory = s.inventory ∧
    (checkNextTaskAux n s).deliveredItems = s.deliveredItems ∧
    (checkNextTaskAux n s).pendingConfirmation = s.pendingConfirmation ∧
    (checkNextTaskAux n s).robots.filterMap (fun r => r.heldItem) =
      s.robots.filterMap (fun r => r.heldItem)
  | 0, s => ⟨rfl, rfl, rfl, rfl⟩
  | n + 1, s => by
    simp only [checkNextTaskAux]
    split
    · exact ⟨rfl, rfl, rfl, rfl⟩
    · split
      · exact checkNextTaskAux_frame n _
      · split
        · exact ⟨rfl, rfl, rfl, rfl⟩
        · split
          · refine ⟨(checkNextTaskAux_frame n _).1, (checkNextTaskAux_frame n _).2.1,
              (checkNextTaskAux_frame n _).2.2.1, ((checkNextTaskAux_frame n _).2.2.2).trans ?_⟩
            exact filterMap_map_same _ _ _ (fun r => by split <;> rfl)
          · refine ⟨rfl, rfl, rfl, ?_⟩
            exact filterMap_map_same _ _ _ (fun r => by split <;> rfl)

/-- Frame lemma for the `checkNextTask` entry point. -/
theorem checkNextTask_frame (s : StoreState) :
    (checkNextTask s).inventory = s.inventory ∧
    (checkNextTask s).deliveredItems = s.deliveredItems ∧
    (checkNextTask s).pendingConfirmation = s.pendingConfirmation ∧
    (checkNextTask s).robots.filterMap (fun r => r.heldItem) =
      s.robots.filterMap (fun r => r.heldItem) :=
  checkNextTaskAux_frame _ s

/-- `placeOrder` appends to the queue and schedules: inventory,
delivered items, the pending latch and the held items are unchanged. -/
theorem placeOrder_frame (items : List VegetableType) (s : StoreState) :
    (placeOrder items s).inventory = s.inventory ∧
    (placeOrder items s).deliveredItems = s.deliveredItems ∧
    (placeOrder items s).pendingConfirmation = s.pendingConfirmation ∧
    (placeOrder items s).robots.filterMap (fun r => r.heldItem) =
      s.robots.filterMap (fun r => r.heldItem) := by
  simp only [placeOrder]
  split
  · exact checkNextTask_frame _
  · exact ⟨rfl, rfl, rfl, rfl⟩

/-- If no robot is idle, `placeOrder` only appends to the queue. -/
theorem placeOrder_taskQueue_busy (items : List VegetableType) (s : StoreState)
    (h : ∀ r ∈ s.robots, ¬ r.status = .IDLE) :
    (placeOrder items s).taskQueue = s.taskQueue ++ items := by
  simp only [placeOrder]
  split
  next hany =>
    exfalso
    simp only [addLog, List.any_eq_true] at hany
    obtain ⟨r, hr, hst⟩ := hany
    exact h r hr (by simpa using hst)
  · rfl

/-!  ## The no-double-booking invariant  -/

/-- `ColOk` holds vacuously when the first robot is not picking. -/
theorem colOk_of_not_pick_left {a b : RobotState}
    (h : ¬ a.status = .MOVING_TO_PICK) : ColOk a b :=
  fun hm => absurd hm h

/-- The assignment step of `checkNextTask` preserves the invariant. -/
theorem InvC1_assign {s : StoreState} {t : VegetableType} {box : VegetableBox}
    {best : RobotState} (hInv : InvC1 s)
    (hbox : schedCandidateBox s t = some box)
    (_hbest : schedBestRobot s box = some best)
    (rest : List VegetableType) :
    InvC1 { s with
      robots := s.robots.map (fun r =>
        if r.id == best.id then
          { r with target := some box.position, status := SystemStatus.MOVING_TO_PICK }
        else r),
      taskQueue := rest } := by
  obtain ⟨hSTO, hInvZ, hIds, hCols⟩ := hInv
  obtain ⟨hbmem, -⟩ := schedCandidateBox_spec hbox
  rw [mem_schedCandidates] at hbmem
  obtain ⟨hbinv, hbtype, hbfree⟩ := hbmem
  have hbz : box.position.z = 0 ∨ box.position.z = 1 := hInvZ box hbinv
  refine ⟨?_, fun b hb => hInvZ b hb, ?_, ?_⟩
  · intro r' hr'
    simp only [List.mem_map] at hr'
    obtain ⟨r, hrmem, rfl⟩ := hr'
    by_cases hid : (r.id == best.id) = true
    · simp only [hid, if_true]
      refine ⟨fun hst => by simp at hst, fun hst => by simp at hst, ?_, Or.inr (Or.inl rfl)⟩
      intro _ t2 ht2
      injection ht2 with ht2
      rw [← ht2]
      exact hbz
    · simp only [hid, if_false]
      exact hSTO r hrmem
  · rw [List.pairwise_map]
    refine hIds.imp_of_mem ?_
    intro a b _ _ hne
    by_cases hA : (a.id == best.id) = true <;> by_cases hB : (b.id == best.id) = true <;>
      simp only [hA, hB, if_true, if_false] <;> exact hne
  · rw [List.pairwise_map]
    refine (hCols.and hIds).imp_of_mem ?_
    intro a b ha hb hab
    obtain ⟨hcol, hne⟩ := hab
    by_cases hA : (a.id == best.id) = true
    · by_cases hB : (b.id == best.id) = true
      · exact absurd (by rw [beq_iff_eq] at hA hB; rw [hA, hB]) hne
      · simp only [hA, hB, if_true, if_false]
        intro _ hbst t1 t2 ht1 ht2
        injection ht1 with ht1
        have hfree := targetsBoxColumn_false (hbfree b hb) t2 ht2
        rw [← ht1]
        by_cases hx : t2.x = box.position.x
        · right
          intro hz
          exact hfree ⟨hx, hz.symm⟩
        · left
          exact fun hax => hx hax.symm
    · by_cases hB : (b.id == best.id) = true
      · simp only [hA, hB, if_true, if_false]
        intro hast _ t1 t2 ht1 ht2
        injection ht2 with ht2
        have hfree := targetsBoxColumn_false (hbfree a ha) t1 ht1
        rw [← ht2]
        by_cases hx : t1.x = box.position.x
        · right
          intro hz
          exact hfree ⟨hx, hz⟩
        · left
          exact hx
      · simp only [hA, hB, if_false]
        exact hcol

/-- `checkNextTaskAux` preserves the invariant. -/
theorem InvC1_checkNextTaskAux : ∀ (n : Nat) (s : StoreState),
    InvC1 s → InvC1 (checkNextTaskAux n s)
  | 0, _, h => h
  | n + 1, s, h => by
    simp only [checkNextTaskAux]
    split
    · exact h
    next nextItemType rest heq =>
      split
      · exact InvC1_checkNextTaskAux n _ h
      next candidateBox hcb =>
        split
        · exact h
        next bestRobot hbr =>
          split
          · exact InvC1_checkNextTaskAux n _ (InvC1_assign h hcb hbr rest)
          · exact InvC1_assign h hcb hbr rest

/-- Replacing a roster slot by a non-picking robot with the same id and
a sound status/target, with an inventory that keeps the z discipline,
preserves the invariant. -/
theorem InvC1_set {s : StoreState} {i : Nat} {robot r2 : RobotState}
    (inv2 : List VegetableBox) (h : InvC1 s) (hi : s.robots[i]? = some robot)
    (hid : r2.id = robot.id) (hnost : ¬ r2.status = .MOVING_TO_PICK)
    (hSTO2 : StatusTargetOk r2)
    (hz : ∀ b ∈ inv2, b.position.z = 0 ∨ b.position.z = 1) :
    InvC1 { s with robots := s.robots.set i r2, inventory := inv2 } := by
  obtain ⟨h1, _, h3, h4⟩ := h
  refine ⟨?_, hz, ?_, ?_⟩
  · intro r' hr'
    rcases List.mem_or_eq_of_mem_set hr' with hmem | rfl
    · exact h1 r' hmem
    · exact hSTO2
  · have hmapeq : (s.robots.set i r2).map (fun r => r.id) =
        s.robots.map (fun r => r.id) := by
      rw [List.map_set]
      apply list_set_self
      rw [List.getElem?_map, hi]
      simp [hid]
    have h3' : (s.robots.map (fun r => r.id)).Pairwise Ne := List.pairwise_map.mpr h3
    have := List.pairwise_map.mp (hmapeq ▸ h3')
    exact this
  · exact pairwise_set_of_rel h4 i (fun b => colOk_of_not_pick_left hnost)
      (fun b hm hst => absurd hst hnost)

/-- `robotArrivedAtTarget` preserves the invariant. -/
theorem InvC1_robotArrived (rid : String) {s : StoreState} (h : InvC1 s) :
    InvC1 (robotArrivedAtTarget rid s) := by
  simp only [robotArrivedAtTarget]
  split
  · exact h
  next i hidx =>
    split
    · exact h
    next robot hrob =>
      split
      · split
        · exact h
        next tgt htgt =>
          split
          · exact InvC1_checkNextTaskAux _ _ (InvC1_set s.inventory h hrob rfl
              (by simp) ⟨fun _ => rfl, fun hst => by simp at hst,
                fun hst => by simp at hst, Or.inl rfl⟩ h.2.1)
          next box hbox =>
            refine InvC1_set (s.inventory.eraseP (pickPredicate tgt)) h hrob rfl
              (by simp) ?_ ?_
            · refine ⟨fun hst => by simp at hst, fun _ => rfl,
                fun hst => by simp at hst, Or.inr (Or.inr rfl)⟩
            · intro b hb
              exact h.2.1 b ((List.eraseP_sublist _).mem hb)
      · split
        · split
          · exact h
          next held hheld =>
            exact InvC1_checkNextTaskAux _ _ (InvC1_set s.inventory h hrob rfl
              (by simp) ⟨fun _ => rfl, fun hst => by simp at hst,
                fun hst => by simp at hst, Or.inl rfl⟩ h.2.1)
        · split
          · exact InvC1_set s.inventory h hrob rfl (by simp)
              ⟨fun _ => rfl, fun hst => by simp at hst,
                fun hst => by simp at hst, Or.inl rfl⟩ h.2.1
          · exact h

/-- `checkNextTask` preserves the invariant. -/
theorem InvC1_checkNextTask {s : StoreState} (h : InvC1 s) : InvC1 (checkNextTask s) :=
  InvC1_checkNextTaskAux _ _ h

/-- `placeOrder` preserves the invariant. -/
theorem InvC1_placeOrder (items : List VegetableType) {s : StoreState} (h : InvC1 s) :
    InvC1 (placeOrder items s) := by
  simp only [placeOrder]
  split
  · exact InvC1_checkNextTask h
  · exact h

/-- `resolvePendingOrder` preserves the invariant. -/
theorem InvC1_resolvePendingOrder (a : ResolveAction) {s : StoreState} (h : InvC1 s) :
    InvC1 (resolvePendingOrder a s) := by
  simp only [resolvePendingOrder]
  split
  · exact h
  · split
    · split
      · exact InvC1_placeOrder _ h
      · exact h
    · exact h

/-- `sendUserMessage` preserves the invariant. -/
theorem InvC1_sendUserMessage (text : String) {s : StoreState} (h : InvC1 s) :
    InvC1 (sendUserMessage text s) := by
  simp only [sendUserMessage]
  split
  · split
    · exact InvC1_resolvePendingOrder _ h
    · split
      · exact InvC1_resolvePendingOrder _ h
      · exact h
  · split
    · exact h
    · split
      · split
        · exact InvC1_placeOrder _ h
        · exact h
      · exact InvC1_placeOrder _ h

/-- The fresh roster satisfies the per-robot discipline. -/
theorem InvC1_freshRobots_aux :
    (∀ r ∈ freshRobots, StatusTargetOk r) ∧
    freshRobots.Pairwise (fun a b => a.id ≠ b.id) ∧ freshRobots.Pairwise ColOk := by
  refine ⟨?_, ?_, ?_⟩
  · intro r hr
    simp only [freshRobots, ROBOT_CONFIGS, List.map_cons, List.map_nil,
      List.mem_cons, List.not_mem_nil, or_false] at hr
    rcases hr with rfl | rfl | rfl <;>
      exact ⟨fun _ => rfl, fun hst => by simp at hst, fun hst => by simp at hst, Or.inl rfl⟩
  · decide
  · simp only [freshRobots, ROBOT_CONFIGS, List.map_cons, List.map_nil]
    refine List.Pairwise.cons ?_ (List.Pairwise.cons ?_ (List.Pairwise.cons ?_ List.Pairwise.nil)) <;>
      intro b _ <;> exact colOk_of_not_pick_left (by simp)

/-- The generated inventory keeps every box at z = 0 or z = 1. -/
theorem generateInventory_z : ∀ b ∈ generateInventory, b.position.z = 0 ∨ b.position.z = 1 := by
  decide

/-- `resetSystem` establishes the invariant from any state. -/
theorem InvC1_resetSystem (s : StoreState) : InvC1 (resetSystem s) :=
  ⟨InvC1_freshRobots_aux.1, generateInventory_z,
   InvC1_freshRobots_aux.2.1, InvC1_freshRobots_aux.2.2⟩

/-- `initInventory` preserves the invariant. -/
theorem InvC1_initInventory {s : StoreState} (h : InvC1 s) : InvC1 (initInventory s) :=
  ⟨h.1, generateInventory_z, h.2.2.1, h.2.2.2⟩

/-- The initial store state satisfies the invariant. -/
theorem InvC1_initialState : InvC1 initialState :=
  ⟨InvC1_freshRobots_aux.1, by intro b hb; simp [initialState] at hb,
   InvC1_freshRobots_aux.2.1, InvC1_freshRobots_aux.2.2⟩

/-- Every inbound operation preserves the invariant. -/
theorem InvC1_applyOp {s : StoreState} (h : InvC1 s) : ∀ op, InvC1 (applyOp s op)
  | .initInventory => InvC1_initInventory h
  | .placeOrder items => InvC1_placeOrder items h
  | .sendUserMessage text => InvC1_sendUserMessage text h
  | .resolvePendingOrder a => InvC1_resolvePendingOrder a h
  | .checkNextTask => InvC1_checkNextTask h
  | .robotArrivedAtTarget rid => InvC1_robotArrived rid h
  | .resetSystem => InvC1_resetSystem s

/-- The invariant holds along every run. -/
theorem InvC1_runOps {s : StoreState} (h : InvC1 s) :
    ∀ ops : List Op, InvC1 (runOps s ops)
  | [] => h
  | op :: ops => InvC1_runOps (InvC1_applyOp h op) ops

/-- In an invariant state, equal non-null targets force two delivering
robots at the delivery zone. -/
theorem InvC1_equal_targets {s : StoreState} (h : InvC1 s) {i j : Nat}
    {ri rj : RobotState} {tgt : GridPosition} (hij : i ≠ j)
    (hi : s.robots[i]? = some ri) (hj : s.robots[j]? = some rj)
    (hti : ri.target = some tgt) (htj : rj.target = some tgt) :
    ri.status = .DELIVERING ∧ rj.status = .DELIVERING ∧ tgt = DELIVERY_ZONE := by
  obtain ⟨hSTO, _, _, hCols⟩ := h
  have hilt : i < s.robots.length := by
    by_contra hlt
    rw [List.getElem?_eq_none (by omega)] at hi
    exact Option.noConfusion hi
  have hjlt : j < s.robots.length := by
    by_contra hlt
    rw [List.getElem?_eq_none (by omega)] at hj
    exact Option.noConfusion hj
  have hri : ri ∈ s.robots := by
    have := List.getElem?_eq_getElem hilt
    rw [this] at hi
    injection hi with hi
    rw [← hi]
    exact List.getElem_mem _
  have hrj : rj ∈ s.robots := by
    have := List.getElem?_eq_getElem hjlt
    rw [this] at hj
    injection hj with hj
    rw [← hj]
    exact List.getElem_mem _
  have hSi := hSTO ri hri
  have hSj := hSTO rj hrj
  have hcol : ColOk ri rj ∨ ColOk rj ri := by
    have hpw := List.pairwise_iff_getElem.mp hCols
    rcases Nat.lt_or_ge i j with hlt | hge
    · left
      have := hpw i j hilt hjlt hlt
      rw [List.getElem?_eq_getElem hilt] at hi
      rw [List.getElem?_eq_getElem hjlt] at hj
      injection hi with hi
      injection hj with hj
      rw [← hi, ← hj]
      exact this
    · right
      have hlt2 : j < i := by omega
      have := hpw j i hjlt hilt hlt2
      rw [List.getElem?_eq_getElem hilt] at hi
      rw [List.getElem?_eq_getElem hjlt] at hj
      injection hi with hi
      injection hj with hj
      rw [← hi, ← hj]
      exact this
  rcases hSi.2.2.2 with hsi | hsi | hsi
  · rw [hSi.1 hsi] at hti
    exact Option.noConfusion hti
  · -- ri is picking
    rcases hSj.2.2.2 with hsj | hsj | hsj
    · rw [hSj.1 hsj] at htj
      exact Option.noConfusion htj
    · -- both picking: the column-distinct pairwise fact contradicts equality
      exfalso
      rcases hcol with hc | hc
      · rcases hc hsi hsj tgt tgt hti htj with hne | hne <;> exact hne rfl
      · rcases hc hsj hsi tgt tgt htj hti with hne | hne <;> exact hne rfl
    · -- ri picking, rj delivering: z coordinates differ
      exfalso
      have hz := hSi.2.2.1 hsi tgt hti
      have hdz := hSj.2.1 hsj
      rw [htj] at hdz
      injection hdz with hdz
      rw [hdz] at hz
      simp [DELIVERY_ZONE] at hz
  · rcases hSj.2.2.2 with hsj | hsj | hsj
    · rw [hSj.1 hsj] at htj
      exact Option.noConfusion htj
    · exfalso
      have hz := hSj.2.2.1 hsj tgt htj
      have hdz := hSi.2.1 hsi
      rw [hti] at hdz
      injection hdz with hdz
      rw [hdz] at hz
      simp [DELIVERY_ZONE] at hz
    · have hdz := hSi.2.1 hsi
      rw [hti] at hdz
      injection hdz with hdz
      exact ⟨hsi, hsj, hdz⟩

/-- C1 (counterexample): after reset, ordering two tomatoes and letting
both assigned robots arrive at their picks, robots R1 and R2 (indices 0
and 1) are simultaneously DELIVERING and both carry the same non-null
target, the fixed delivery position - so the claimed invariant "no two
agents have an equal non-null target" fails on a reachable state. -/
theorem C1_counterexample :
    (runOps initialState opsC1).robots[0]? = some rC1a ∧
    (runOps initialState opsC1).robots[1]? = some rC1b ∧
    rC1a.target = rC1b.target ∧ rC1a.target ≠ none ∧
    rC1a.status = .DELIVERING ∧ rC1b.status = .DELIVERING :=
  ⟨by decide, by decide, by decide, by decide, by decide, by decide⟩

/-- C1 (amended): in every state reachable from the initial state by the
seven inbound operations, two distinct agents can hold equal non-null
targets only when both are in status DELIVERING and the shared target is
the fixed delivery position; in particular no two agents moving to pick
ever share a target. -/
theorem C1_no_double_booking (ops : List Op) (i j : Nat) (ri rj : RobotState)
    (tgt : GridPosition) (hij : i ≠ j)
    (hi : (runOps initialState ops).robots[i]? = some ri)
    (hj : (runOps initialState ops).robots[j]? = some rj)
    (hti : ri.target = some tgt) (htj : rj.target = some tgt) :
    ri.status = .DELIVERING ∧ rj.status = .DELIVERING ∧ tgt = DELIVERY_ZONE :=
  InvC1_equal_targets (InvC1_runOps InvC1_initialState ops) hij hi hj hti htj

/-- Witness for the amended C1 at a concrete reachable state. -/
theorem C1_no_double_booking_witness :
    rC1a.status = .DELIVERING ∧ rC1b.status = .DELIVERING ∧
    DELIVERY_ZONE = DELIVERY_ZONE :=
  C1_no_double_booking opsC1 0 1 rC1a rC1b DELIVERY_ZONE (by decide) (by decide)
    (by decide) (by decide) (by decide)

/-!  ## Conservation of boxes  -/

/-- A found element can be split off the list up to permutation. -/
theorem perm_cons_eraseP_of_find {α : Type} {p : α → Bool} :
    ∀ {l : List α} {b : α}, l.find? p = some b → List.Perm l (b :: l.eraseP p)
  | [], b, h => by simp at h
  | a :: t, b, h => by
    by_cases hpa : p a = true
    · rw [List.find?_cons_of_pos _ hpa] at h
      injection h with h
      subst h
      rw [List.eraseP_cons_of_pos hpa]
    · rw [List.find?_cons_of_neg _ hpa] at h
      rw [List.eraseP_cons_of_neg hpa]
      exact ((perm_cons_eraseP_of_find h).cons a).trans (List.Perm.swap b a _)

/-- `filterMap` ignores a `set` that keeps the extracted field. -/
theorem filterMap_set_same {α β : Type} {g : α → Option β} :
    ∀ {l : List α} {i : Nat} {a b : α}, l[i]? = some a → g b = g a →
      (l.set i b).filterMap g = l.filterMap g
  | [], i, a, b, h, _ => by simp at h
  | c :: t, 0, a, b, h, hg => by
    simp only [List.getElem?_cons_zero, Option.some.injEq] at h
    subst h
    simp only [List.set_cons_zero, List.filterMap_cons, hg]
  | c :: t, i + 1, a, b, h, hg => by
    simp only [List.getElem?_cons_succ] at h
    simp only [List.set_cons_succ, List.filterMap_cons,
      filterMap_set_same (l := t) (i := i) h hg]

/-- An element of a list at an index is a member. -/
theorem mem_of_getElem? {α : Type} {l : List α} {i : Nat} {a : α}
    (h : l[i]? = some a) : a ∈ l := by
  have hlt : i < l.length := by
    by_contra hlt
    rw [List.getElem?_eq_none (by omega)] at h
    exact Option.noConfusion h
  rw [List.getElem?_eq_getElem hlt] at h
  injection h with h
  rw [← h]
  exact List.getElem_mem _

/-- `boxIds` only looks at inventory, held items and delivered items. -/
theorem boxIds_congr {s s2 : StoreState} (hinv : s2.inventory = s.inventory)
    (hheld : s2.robots.filterMap (fun r => r.heldItem) =
      s.robots.filterMap (fun r => r.heldItem))
    (hdel : s2.deliveredItems = s.deliveredItems) : boxIds s2 = boxIds s := by
  simp only [boxIds, heldBoxes, hinv, hheld, hdel]

/-- Scheduling never moves a box. -/
theorem boxIds_checkNextTask (s : StoreState) : boxIds (checkNextTask s) = boxIds s :=
  boxIds_congr (checkNextTask_frame s).1 (checkNextTask_frame s).2.2.2
    (checkNextTask_frame s).2.1

/-- Ordering never moves a box. -/
theorem boxIds_placeOrder (items : List VegetableType) (s : StoreState) :
    boxIds (placeOrder items s) = boxIds s :=
  boxIds_congr (placeOrder_frame items s).1 (placeOrder_frame items s).2.2.2
    (placeOrder_frame items s).2.1

/-- Frame lemma for `resolvePendingOrder`. -/
theorem resolvePendingOrder_frame (a : ResolveAction) (s : StoreState) :
    (resolvePendingOrder a s).inventory = s.inventory ∧
    (resolvePendingOrder a s).deliveredItems = s.deliveredItems ∧
    (resolvePendingOrder a s).robots.filterMap (fun r => r.heldItem) =
      s.robots.filterMap (fun r => r.heldItem) := by
  simp only [resolvePendingOrder]
  split
  · exact ⟨rfl, rfl, rfl⟩
  · split
    · split
      · exact ⟨(placeOrder_frame _ _).1, (placeOrder_frame _ _).2.1,
          (placeOrder_frame _ _).2.2.2⟩
      · exact ⟨rfl, rfl, rfl⟩
    · exact ⟨rfl, rfl, rfl⟩

/-- Resolving never moves a box. -/
theorem boxIds_resolvePendingOrder (a : ResolveAction) (s : StoreState) :
    boxIds (resolvePendingOrder a s) = boxIds s :=
  boxIds_congr (resolvePendingOrder_frame a s).1 (resolvePendingOrder_frame a s).2.2
    (resolvePendingOrder_frame a s).2.1

/-- Frame lemma for `sendUserMessage`. -/
theorem sendUserMessage_frame (text : String) (s : StoreState) :
    (sendUserMessage text s).inventory = s.inventory ∧
    (sendUserMessage text s).deliveredItems = s.deliveredItems ∧
    (sendUserMessage text s).robots.filterMap (fun r => r.heldItem) =
      s.robots.filterMap (fun r => r.heldItem) := by
  simp only [sendUserMessage]
  split
  · split
    · exact resolvePendingOrder_frame _ _
    · split
      · exact resolvePendingOrder_frame _ _
      · exact ⟨rfl, rfl, rfl⟩
  · split
    · exact ⟨rfl, rfl, rfl⟩
    · split
      · split
        · exact ⟨(placeOrder_frame _ _).1, (placeOrder_frame _ _).2.1,
            (placeOrder_frame _ _).2.2.2⟩
        · exact ⟨rfl, rfl, rfl⟩
      · exact ⟨(placeOrder_frame _ _).1, (placeOrder_frame _ _).2.1,
          (placeOrder_frame _ _).2.2.2⟩

/-- Chatting never moves a box. -/
theorem boxIds_sendUserMessage (text : String) (s : StoreState) :
    boxIds (sendUserMessage text s) = boxIds s :=
  boxIds_congr (sendUserMessage_frame text s).1 (sendUserMessage_frame text s).2.2
    (sendUserMessage_frame text s).2.1

/-- Arrivals move exactly one box (inventory to hand on a pick, hand to
delivered list on a delivery) when held items sit only on delivering
robots. -/
theorem boxIds_robotArrived (rid : String) {s : StoreState} (hheld : HeldOk s) :
    boxIds (robotArrivedAtTarget rid s) = boxIds s := by
  simp only [robotArrivedAtTarget]
  split
  · rfl
  next i hidx =>
    split
    · rfl
    next robot hrob =>
      have hrobmem : robot ∈ s.robots := mem_of_getElem? hrob
      split
      next hstat =>
        rw [beq_iff_eq] at hstat
        split
        · rfl
        next tgt htgt =>
          split
          next hbox =>
            rw [boxIds_checkNextTask]
            exact boxIds_congr rfl (filterMap_set_same hrob rfl) rfl
          next box hbox =>
            have hnone : robot.heldItem = none := hheld robot hrobmem (Or.inl hstat)
            have hperm := perm_cons_eraseP_of_find hbox
            have hpermheld := filterMap_set_none_some (g := fun r => r.heldItem)
              (b := { robot with heldItem := some box, status := .DELIVERING, target := some DELIVERY_ZONE }) hrob hnone rfl
            simp only [boxIds, heldBoxes, addLog]
            have hinv : (↑(s.inventory.map (fun b => b.id)) : Multiset Nat) =
                box.id ::ₘ ↑((s.inventory.eraseP (pickPredicate tgt)).map (fun b => b.id)) := by
              have := hperm.map (fun b => b.id)
              rw [Multiset.coe_eq_coe.mpr this]
              rfl
            have hhand : (↑(((s.robots.set i { robot with heldItem := some box, status := .DELIVERING, target := some DELIVERY_ZONE }).filterMap (fun r => r.heldItem)).map (fun b => b.id)) : Multiset Nat) =
                box.id ::ₘ ↑((s.robots.filterMap (fun r => r.heldItem)).map (fun b => b.id)) := by
              have := hpermheld.map (fun b => b.id)
              rw [Multiset.coe_eq_coe.mpr this]
              rfl
            rw [hinv, hhand]
            simp only [Multiset.cons_add, Multiset.add_cons]
      next hstat =>
        split
        next hstat2 =>
          rw [beq_iff_eq] at hstat2
          split
          · rfl
          next held hhand2 =>
            rw [boxIds_checkNextTask]
            have hpermheld := filterMap_set_some_none (g := fun r => r.heldItem)
              (b := { robot with heldItem := none, status := .IDLE, target := none })
              hrob hhand2 rfl
            simp only [boxIds, heldBoxes, addLog]
            have hhand : (↑((s.robots.filterMap (fun r => r.heldItem)).map (fun b => b.id)) : Multiset Nat) =
                held.id ::ₘ ↑(((s.robots.set i { robot with heldItem := none, status := .IDLE, target := none }).filterMap (fun r => r.heldItem)).map (fun b => b.id)) := by
              have := hpermheld.map (fun b => b.id)
              rw [Multiset.coe_eq_coe.mpr this]
              rfl
            rw [hhand]
            simp only [List.map_append, List.map_cons, List.map_nil]
            rw [show (↑(s.deliveredItems.map (fun b => b.id) ++ [held.id]) : Multiset Nat) =
              ↑(s.deliveredItems.map (fun b => b.id)) + (held.id ::ₘ 0) from rfl]
            simp only [Multiset.cons_add, Multiset.add_cons]
            simp only [Multiset.cons_add, Multiset.add_cons, add_zero]
        next =>
          split
          · exact boxIds_congr rfl (filterMap_set_same hrob rfl) rfl
          · rfl

/-- Replacing a roster slot, keeping the id, with a sanely-held and
sanely-statused robot preserves roster sanity. -/
theorem SaneRobots_set {s s2 : StoreState} {i : Nat} {robot r2 : RobotState}
    (h : SaneRobots s) (hrob : s.robots[i]? = some robot)
    (hs2 : s2.robots = s.robots.set i r2) (hid : r2.id = robot.id)
    (hheld2 : (r2.status = .MOVING_TO_PICK ∨ r2.status = .IDLE) → r2.heldItem = none)
    (hclosed2 : r2.status = .IDLE ∨ r2.status = .MOVING_TO_PICK ∨ r2.status = .DELIVERING) :
    SaneRobots s2 := by
  obtain ⟨h1, h2, h3⟩ := h
  refine ⟨?_, ?_, ?_⟩
  · intro r' hr'
    rw [hs2] at hr'
    rcases List.mem_or_eq_of_mem_set hr' with hmem | rfl
    · exact h1 r' hmem
    · exact hheld2
  · rw [hs2]
    have hmapeq : (s.robots.set i r2).map (fun r => r.id) =
        s.robots.map (fun r => r.id) := by
      rw [List.map_set]
      apply list_set_self
      rw [List.getElem?_map, hrob]
      simp [hid]
    have h2m : (s.robots.map (fun r => r.id)).Pairwise Ne := List.pairwise_map.mpr h2
    exact List.pairwise_map.mp (hmapeq ▸ h2m)
  · intro r' hr'
    rw [hs2] at hr'
    rcases List.mem_or_eq_of_mem_set hr' with hmem | rfl
    · exact h3 r' hmem
    · exact hclosed2

/-- The scheduler preserves roster sanity. -/
theorem SaneRobots_checkNextTaskAux : ∀ (n : Nat) (s : StoreState),
    SaneRobots s → SaneRobots (checkNextTaskAux n s)
  | 0, _, h => h
  | n + 1, s, h => by
    simp only [checkNextTaskAux]
    split
    · exact h
    next nextItemType rest heq =>
      split
      · exact SaneRobots_checkNextTaskAux n _ h
      next candidateBox hcb =>
        split
        · exact h
        next bestRobot hbr =>
          obtain ⟨h1, h2, h3⟩ := h
          obtain ⟨hbmem, -⟩ := schedBestRobot_spec hbr
          rw [mem_idleRobotsOf] at hbmem
          have hnext : SaneRobots { s with
              robots := s.robots.map (fun r =>
                if r.id == bestRobot.id then
                  { r with target := some candidateBox.position, status := SystemStatus.MOVING_TO_PICK }
                else r),
              taskQueue := rest } := by
            refine ⟨?_, ?_, ?_⟩
            · intro r' hr'
              simp only [List.mem_map] at hr'
              obtain ⟨r, hrmem, rfl⟩ := hr'
              by_cases hA : (r.id == bestRobot.id) = true
              · simp only [hA, if_true]
                intro _
                have hrb : r = bestRobot := by
                  by_contra hne
                  exact List.Pairwise.forall (by intro a b hab e; exact hab e.symm) h2
                    hrmem hbmem.1 hne (by rw [beq_iff_eq] at hA; rw [hA])
                rw [hrb]
                exact h1 bestRobot hbmem.1 (Or.inr hbmem.2)
              · simp only [hA, if_false]
                exact h1 r hrmem
            · rw [List.pairwise_map]
              refine h2.imp_of_mem ?_
              intro a b _ _ hne
              by_cases hA : (a.id == bestRobot.id) = true <;>
                by_cases hB : (b.id == bestRobot.id) = true <;>
                simp only [hA, hB, if_true, if_false] <;> exact hne
            · intro r' hr'
              simp only [List.mem_map] at hr'
              obtain ⟨r, hrmem, rfl⟩ := hr'
              by_cases hA : (r.id == bestRobot.id) = true
              · simp [hA]
              · simp only [hA, if_false]
                exact h3 r hrmem
          split
          · exact SaneRobots_checkNextTaskAux n _ hnext
          · exact hnext

/-- `checkNextTask` preserves roster sanity. -/
theorem SaneRobots_checkNextTask {s : StoreState} (h : SaneRobots s) :
    SaneRobots (checkNextTask s) :=
  SaneRobots_checkNextTaskAux _ _ h

/-- `placeOrder` preserves roster sanity. -/
theorem SaneRobots_placeOrder (items : List VegetableType) {s : StoreState}
    (h : SaneRobots s) : SaneRobots (placeOrder items s) := by
  simp only [placeOrder]
  split
  · exact SaneRobots_checkNextTask h
  · exact h

/-- `resolvePendingOrder` preserves roster sanity. -/
theorem SaneRobots_resolvePendingOrder (a : ResolveAction) {s : StoreState}
    (h : SaneRobots s) : SaneRobots (resolvePendingOrder a s) := by
  simp only [resolvePendingOrder]
  split
  · exact h
  · split
    · split
      · exact SaneRobots_placeOrder _ h
      · exact h
    · exact h

/-- `sendUserMessage` preserves roster sanity. -/
theorem SaneRobots_sendUserMessage (text : String) {s : StoreState}
    (h : SaneRobots s) : SaneRobots (sendUserMessage text s) := by
  simp only [sendUserMessage]
  split
  · split
    · exact SaneRobots_resolvePendingOrder _ h
    · split
      · exact SaneRobots_resolvePendingOrder _ h
      · exact h
  · split
    · exact h
    · split
      · split
        · exact SaneRobots_placeOrder _ h
        · exact h
      · exact SaneRobots_placeOrder _ h

/-- `robotArrivedAtTarget` preserves roster sanity. -/
theorem SaneRobots_robotArrived (rid : String) {s : StoreState} (h : SaneRobots s) :
    SaneRobots (robotArrivedAtTarget rid s) := by
  simp only [robotArrivedAtTarget]
  split
  · exact h
  next i hidx =>
    split
    · exact h
    next robot hrob =>
      have hrobmem : robot ∈ s.robots := mem_of_getElem? hrob
      split
      next hstat =>
        rw [beq_iff_eq] at hstat
        split
        · exact h
        next tgt htgt =>
          split
          · apply SaneRobots_checkNextTaskAux
            apply SaneRobots_set h hrob
            · rfl
            · rfl
            · intro _
              exact h.1 robot hrobmem (Or.inl hstat)
            · exact Or.inl rfl
          next box hbox =>
            apply SaneRobots_set h hrob
            · rfl
            · rfl
            · intro hc
              rcases hc with hc | hc <;> simp at hc
            · exact Or.inr (Or.inr rfl)
      next hstat =>
        split
        next hstat2 =>
          split
          · exact h
          next held hheld2 =>
            apply SaneRobots_checkNextTaskAux
            apply SaneRobots_set h hrob
            · rfl
            · rfl
            · intro _
              rfl
            · exact Or.inl rfl
        next hstat2 =>
          split
          next hstat3 =>
            exfalso
            rw [beq_iff_eq] at hstat3
            rcases h.2.2 robot hrobmem with hc | hc | hc <;>
              rw [hc] at hstat3 <;> simp at hstat3
          · exact h

/-- The fresh roster is sane. -/
theorem SaneRobots_fresh :
    HeldOk { initialState with robots := freshRobots } ∧
    freshRobots.Pairwise (fun a b => a.id ≠ b.id) ∧
    (∀ r ∈ freshRobots, r.status = .IDLE ∨ r.status = .MOVING_TO_PICK ∨
      r.status = .DELIVERING) := by
  refine ⟨?_, by decide, by decide⟩
  intro r hr _
  fin_cases hr <;> rfl

/-- Every inbound operation preserves roster sanity. -/
theorem SaneRobots_applyOp {s : StoreState} (h : SaneRobots s) :
    ∀ op, SaneRobots (applyOp s op)
  | .initInventory => h
  | .placeOrder items => SaneRobots_placeOrder items h
  | .sendUserMessage text => SaneRobots_sendUserMessage text h
  | .resolvePendingOrder a => SaneRobots_resolvePendingOrder a h
  | .checkNextTask => SaneRobots_checkNextTask h
  | .robotArrivedAtTarget rid => SaneRobots_robotArrived rid h
  | .resetSystem => ⟨SaneRobots_fresh.1, SaneRobots_fresh.2.1, SaneRobots_fresh.2.2⟩

/-- The state after a reset is sane. -/
theorem SaneRobots_reset (s : StoreState) : SaneRobots (resetSystem s) :=
  ⟨SaneRobots_fresh.1, SaneRobots_fresh.2.1, SaneRobots_fresh.2.2⟩

/-- One epoch operation preserves the box-id multiset in a sane state. -/
theorem boxIds_epochOp {s : StoreState} (op : Op) (hop : epochOp op)
    (hheld : HeldOk s) : boxIds (applyOp s op) = boxIds s := by
  cases op with
  | initInventory => exact absurd hop (by simp [epochOp])
  | placeOrder items => exact boxIds_placeOrder items s
  | sendUserMessage text => exact boxIds_sendUserMessage text s
  | resolvePendingOrder a => exact boxIds_resolvePendingOrder a s
  | checkNextTask => exact boxIds_checkNextTask s
  | robotArrivedAtTarget rid => exact boxIds_robotArrived rid hheld
  | resetSystem => exact absurd hop (by simp [epochOp])

/-- Along a run of epoch operations from a sane state, the box-id
multiset never changes. -/
theorem boxIds_runOps : ∀ (ops : List Op) (s : StoreState), SaneRobots s →
    (∀ op ∈ ops, epochOp op) → boxIds (runOps s ops) = boxIds s
  | [], _, _, _ => rfl
  | op :: ops, s, hs, hops => by
    have h1 := boxIds_epochOp op (hops op (List.mem_cons_self _ _)) hs.1
    have h2 := boxIds_runOps ops (applyOp s op) (SaneRobots_applyOp hs op)
      (fun o ho => hops o (List.mem_cons_of_mem _ ho))
    calc boxIds (runOps (applyOp s op) ops) = boxIds (applyOp s op) := h2
      _ = boxIds s := h1

/-- The cardinality of the box-id multiset is the visible sum of sizes. -/
theorem boxIds_card (s : StoreState) :
    Multiset.card (boxIds s) =
      s.inventory.length + (heldBoxes s).length + s.deliveredItems.length := by
  simp [boxIds]
  omega

/-- C2 (counterexample): in a state where a MOVING_TO_PICK agent already
holds an item (impossible in reachable states, but the claim quantifies
over every state), the arrival event overwrites the held item with the
picked box, losing a box id - so the multiset is not preserved by
`robotArrivedAtTarget` on every state. -/
theorem C2_counterexample :
    sC2bad.robots.map (fun r => (r.status, r.heldItem)) =
      [(SystemStatus.MOVING_TO_PICK, some ghostBox)] ∧
    boxIds (robotArrivedAtTarget "R1" sC2bad) ≠ boxIds sC2bad :=
  ⟨by decide, by decide⟩

/-- C2 (amended): for every state in which no idle or picking agent
holds an item - true of every reachable state - each of the five
in-epoch operations preserves the multiset of box ids across inventory,
held items and the delivered list; consequently, in every state
reachable from a reset by in-epoch operations,
|inventory| + |held| + |delivered| equals the number of boxes generated
at that reset. -/
theorem C2_conservation :
    (∀ (s : StoreState) (op : Op), epochOp op → HeldOk s →
      boxIds (applyOp s op) = boxIds s) ∧
    (∀ (s : StoreState) (ops : List Op), (∀ op ∈ ops, epochOp op) →
      (runOps (resetSystem s) ops).inventory.length +
        (heldBoxes (runOps (resetSystem s) ops)).length +
        (runOps (resetSystem s) ops).deliveredItems.length =
        generateInventory.length) := by
  constructor
  · intro s op hop hheld
    exact boxIds_epochOp op hop hheld
  · intro s ops hops
    have h1 := boxIds_runOps ops (resetSystem s) (SaneRobots_reset s) hops
    have h2 : Multiset.card (boxIds (runOps (resetSystem s) ops)) =
        Multiset.card (boxIds (resetSystem s)) := by rw [h1]
    rw [boxIds_card, boxIds_card] at h2
    rw [h2, show heldBoxes (resetSystem s) = [] from rfl,
      show (resetSystem s).deliveredItems = [] from rfl,
      show (resetSystem s).inventory = generateInventory from rfl]
    simp

/-- Witness for the amended C2: a real delivery event preserves the
multiset, and a pick along a run after reset keeps the total at the
generated count. -/
theorem C2_conservation_witness :
    boxIds (applyOp sC1 (Op.robotArrivedAtTarget "R1")) = boxIds sC1 ∧
    (runOps (resetSystem initialState) opsC2w).inventory.length +
      (heldBoxes (runOps (resetSystem initialState) opsC2w)).length +
      (runOps (resetSystem initialState) opsC2w).deliveredItems.length =
      generateInventory.length :=
  ⟨C2_conservation.1 sC1 (Op.robotArrivedAtTarget "R1") trivial (by decide),
   C2_conservation.2 initialState opsC2w (by decide)⟩

/-- C10 (confirmed): an arrival event for an id not in the roster, or
for an agent whose status is IDLE, leaves the entire state unchanged. -/
theorem C10_unknown_or_idle_arrival_no_op (s : StoreState) (rid : String) :
    ((∀ r ∈ s.robots, r.id ≠ rid) → robotArrivedAtTarget rid s = s) ∧
    (∀ (i : Nat) (robot : RobotState),
      s.robots.findIdx? (fun r => r.id == rid) = some i →
      s.robots[i]? = some robot → robot.status = .IDLE →
      robotArrivedAtTarget rid s = s) := by
  constructor
  · intro h
    have hnone : s.robots.findIdx? (fun r => r.id == rid) = none := by
      rw [List.findIdx?_eq_none_iff]
      intro r hr
      simpa using h r hr
    simp only [robotArrivedAtTarget, hnone]
  · intro i robot hidx hrob hstat
    simp [robotArrivedAtTarget, hidx, hrob, hstat]

/-- Witness: an arrival for the unknown id "ZZ" leaves the initial
state unchanged. -/
theorem C10_unknown_or_idle_arrival_no_op_witness :
    robotArrivedAtTarget "ZZ" initialState = initialState :=
  (C10_unknown_or_idle_arrival_no_op initialState "ZZ").1 (by decide)

/-- C9 (confirmed): an arrival for a MOVING_TO_PICK agent either finds
no box exactly at its target - then the error is logged, the agent is
reset to IDLE with a null target, the inventory is untouched, and the
scheduler is re-invoked - or finds the box sitting exactly there - then
that box leaves the inventory, becomes the agent's held item, the agent
turns DELIVERING and is retargeted to the fixed delivery position. -/
theorem C9_pick_arrival (s : StoreState) (rid : String) (i : Nat)
    (robot : RobotState) (tgt : GridPosition)
    (hidx : s.robots.findIdx? (fun r => r.id == rid) = some i)
    (hrob : s.robots[i]? = some robot)
    (hst : robot.status = .MOVING_TO_PICK)
    (htgt : robot.target = some tgt) :
    (s.inventory.find? (pickPredicate tgt) = none →
      robotArrivedAtTarget rid s =
        checkNextTask { (addLog ("Error: Box gone when Robot " ++ rid ++ " arrived! Retrying...") s) with
          robots := s.robots.set i { robot with status := .IDLE, target := none } } ∧
      (robotArrivedAtTarget rid s).inventory = s.inventory) ∧
    (∀ box, s.inventory.find? (pickPredicate tgt) = some box →
      box.position = tgt ∧
      robotArrivedAtTarget rid s =
        addLog ("Robot " ++ rid ++ " picked up " ++ vegName box.type ++ ". Delivering...")
          { s with
            inventory := s.inventory.eraseP (pickPredicate tgt)
            robots := s.robots.set i { robot with heldItem := some box, status := .DELIVERING, target := some DELIVERY_ZONE } }) := by
  constructor
  · intro hfind
    have heq : robotArrivedAtTarget rid s =
        checkNextTask { (addLog ("Error: Box gone when Robot " ++ rid ++ " arrived! Retrying...") s) with
          robots := s.robots.set i { robot with status := .IDLE, target := none } } := by
      simp only [robotArrivedAtTarget, hidx, hrob, hst, htgt, hfind, checkNextTask]
      rfl
    refine ⟨heq, ?_⟩
    rw [heq, (checkNextTask_frame _).1]
    rfl
  · intro box hfind
    constructor
    · have hpred := List.find?_some hfind
      simp only [pickPredicate, Bool.and_eq_true, beq_iff_eq] at hpred
      obtain ⟨⟨hx, hy⟩, hz⟩ := hpred
      rcases box with ⟨bid, btype, bpos⟩
      rcases bpos with ⟨px, py, pz⟩
      rcases tgt with ⟨tx, ty, tz⟩
      simp_all
    · simp [robotArrivedAtTarget, hidx, hrob, hst, htgt, hfind]

/-- Witness for C9: a robot arrives at an empty cell; its inventory is
untouched. -/
theorem C9_pick_arrival_witness :
    (robotArrivedAtTarget "R1" sC9).inventory = sC9.inventory :=
  ((C9_pick_arrival sC9 "R1" 0 rC9 { x := 9, y := 9, z := 9 } (by decide) (by decide)
    (by decide) (by decide)).1 (by decide)).2

/-- C7 (confirmed): when a scheduling pass has found a candidate box,
the bound agent is an idle robot minimizing the x/z Manhattan distance
to the box over all idle robots; when no robot is idle, the pass leaves
the whole state - in particular the queue, entry still at the front -
unchanged. -/
theorem C7_auction (s : StoreState) (t : VegetableType) (rest : List VegetableType)
    (box : VegetableBox) (hq : s.taskQueue = t :: rest)
    (hbox : schedCandidateBox s t = some box) :
    (idleRobotsOf s = [] → checkNextTask s = s) ∧
    (idleRobotsOf s = [] ↔ schedBestRobot s box = none) ∧
    (∀ r, schedBestRobot s box = some r →
      r ∈ s.robots ∧ r.status = .IDLE ∧
      ∀ r2 ∈ s.robots, r2.status = .IDLE →
        manhattanXZ r.position box.position ≤ manhattanXZ r2.position box.position) := by
  refine ⟨?_, schedBestRobot_none_iff.symm, ?_⟩
  · intro hidle
    have hnone : schedBestRobot s box = none := schedBestRobot_none_iff.mpr hidle
    simp only [checkNextTask, hq, List.length_cons, checkNextTaskAux, hbox, hnone]
  · intro r hr
    obtain ⟨hmem, hmin⟩ := schedBestRobot_spec hr
    rw [mem_idleRobotsOf] at hmem
    exact ⟨hmem.1, hmem.2, fun r2 hr2 hst2 => hmin r2 (mem_idleRobotsOf.mpr ⟨hr2, hst2⟩)⟩

/-- Witness for C7: with a corn task queued on the full inventory, robot
R3 is idle and closest to the top corn box. -/
theorem C7_auction_witness :
    rC7 ∈ sC7.robots ∧ rC7.status = .IDLE ∧
    ∀ r2 ∈ sC7.robots, r2.status = .IDLE →
      manhattanXZ rC7.position cornTopC7.position ≤
        manhattanXZ r2.position cornTopC7.position :=
  (C7_auction sC7 .Corn [] cornTopC7 (by decide) (by decide)).2.2 rC7 (by decide)

/-- C4 (counterexample): in `sC4` a tomato task is queued, an idle robot
is available, and the only tomato box is not the target of any agent -
yet the scheduler drops the entry without binding, because the box's
(x, z) column is occupied by robot R1's target at a different height.
So the selection/exhaustion rule quantified over boxes "not currently
the target of any assigned agent" is false for the code. -/
theorem C4_counterexample :
    sC4.taskQueue = [VegetableType.Tomato] ∧
    specCandidates sC4 .Tomato = [bC4] ∧
    (∀ r ∈ sC4.robots, r.target ≠ some bC4.position) ∧
    (checkNextTask sC4).taskQueue = [] ∧
    (checkNextTask sC4).robots = sC4.robots :=
  ⟨by decide, by decide, by decide, by decide, by decide⟩

/-- C4 (amended): the box bound by a scheduling pass is an inventory box
of the front entry's type whose (x, z) column is occupied by no robot's
target - in particular it is not any robot's exact target - and it has
maximal height among those column-free boxes of the type; and exactly
when no column-free box of the type exists, the pass logs the
exhaustion, removes the front entry without binding, and restarts. -/
theorem C4_candidate_selection (s : StoreState) (t : VegetableType)
    (rest : List VegetableType) (hq : s.taskQueue = t :: rest) :
    (schedCandidateBox s t = none ↔ schedCandidates s t = []) ∧
    (schedCandidateBox s t = none →
      checkNextTask s = checkNextTask { (addLog ("Error: Out of stock for " ++ vegName t ++ "! Skipping.") s) with taskQueue := rest }) ∧
    (∀ b, schedCandidateBox s t = some b →
      b ∈ s.inventory ∧ b.type = t ∧
      (∀ r ∈ s.robots, ∀ tg, r.target = some tg →
        ¬(tg.x = b.position.x ∧ tg.z = b.position.z)) ∧
      (∀ b2 ∈ schedCandidates s t, b2.position.y ≤ b.position.y)) := by
  refine ⟨schedCandidateBox_none_iff, ?_, ?_⟩
  · intro hnone
    simp only [checkNextTask, hq, List.length_cons, checkNextTaskAux, hnone]
  · intro b hb
    obtain ⟨hmem, hmax⟩ := schedCandidateBox_spec hb
    rw [mem_schedCandidates] at hmem
    obtain ⟨hinv, htype, hfree⟩ := hmem
    exact ⟨hinv, htype, fun r hr tg htg => targetsBoxColumn_false (hfree r hr) tg htg, hmax⟩

/-- Witness for the amended C4: the scheduler's candidate for corn on
the full inventory is the top corn box, column-free and of maximal
height. -/
theorem C4_candidate_selection_witness :
    cornTopC7 ∈ sC7.inventory ∧ cornTopC7.type = .Corn ∧
    (∀ r ∈ sC7.robots, ∀ tg, r.target = some tg →
      ¬(tg.x = cornTopC7.position.x ∧ tg.z = cornTopC7.position.z)) ∧
    (∀ b2 ∈ schedCandidates sC7 .Corn, b2.position.y ≤ cornTopC7.position.y) :=
  (C4_candidate_selection sC7 .Corn [] (by decide)).2.2 cornTopC7 (by decide)

/-- C8 (counterexample): `initInventory` called on a state with a
queued task does not clear the task queue, so it does not fully
reconstruct the in-memory state as the claim asserts of it. -/
theorem C8_counterexample :
    sC8.taskQueue = [VegetableType.Corn] ∧
    (initInventory sC8).taskQueue = [VegetableType.Corn] ∧
    (initInventory sC8).taskQueue ≠ [] :=
  ⟨rfl, rfl, by decide⟩

/-- C8 (amended): `resetSystem`, from any state, fully reconstructs the
in-memory state - fresh inventory, empty queue, empty delivered list,
no pending confirmation, all agents idle with no target and no held
item - while `initInventory` only regenerates the inventory (and resets
the log), leaving the queue, the delivered list, the pending latch and
the agents unchanged. -/
theorem C8_reset_semantics (s : StoreState) :
    (resetSystem s).inventory = generateInventory ∧
    (resetSystem s).taskQueue = [] ∧
    (resetSystem s).deliveredItems = [] ∧
    (resetSystem s).pendingConfirmation = none ∧
    (∀ r ∈ (resetSystem s).robots,
      r.status = .IDLE ∧ r.target = none ∧ r.heldItem = none) ∧
    (initInventory s).inventory = generateInventory ∧
    (initInventory s).taskQueue = s.taskQueue ∧
    (initInventory s).deliveredItems = s.deliveredItems ∧
    (initInventory s).pendingConfirmation = s.pendingConfirmation ∧
    (initInventory s).robots = s.robots := by
  refine ⟨rfl, rfl, rfl, rfl, ?_, rfl, rfl, rfl, rfl, rfl⟩
  intro r hr
  fin_cases hr <;> exact ⟨rfl, rfl, rfl⟩

/-- The phrase fold of `parseUserOrder` is a filter-then-concatenate. -/
theorem parse_fold_decomp : ∀ (phrases : List (List Char))
    (acc : List (VegetableType × Nat)),
    phrases.foldl (fun orders phrase =>
      if containsNegation phrase then orders
      else orders ++ scanWords (splitWsRuns phrase)) acc =
    acc ++ (phrases.filter (fun p => !containsNegation p)).flatMap
      (fun p => scanWords (splitWsRuns p))
  | [], acc => by simp
  | p :: ps, acc => by
    simp only [List.foldl_cons, List.filter_cons]
    by_cases hneg : containsNegation p = true
    · simp only [hneg, if_true, Bool.not_true, if_false]
      exact parse_fold_decomp ps acc
    · have hneg2 : containsNegation p = false := by
        cases hcn : containsNegation p
        · rfl
        · exact absurd hcn hneg
      simp only [hneg2, Bool.not_false, if_true, if_false, Bool.false_eq_true,
        List.flatMap_cons]
      rw [parse_fold_decomp ps (acc ++ scanWords (splitWsRuns p)), List.append_assoc]

/-- C5 (counterexample): the phrase "i dont want 2 corn" contains none
of the claim's five negation tokens (even as substrings), so the claim
demands it be processed normally, yielding one corn pair - but the
code's regex also matches the alternative "dont", so the whole phrase
is dropped and the parse is empty. -/
theorem C5_counterexample :
    parseUserOrder "i dont want 2 corn" = [] ∧
    parseUserOrderSpec "i dont want 2 corn" = [(VegetableType.Corn, 2)] ∧
    parseUserOrder "i dont want 2 corn" ≠
      parseUserOrderSpec "i dont want 2 corn" :=
  ⟨by decide, by decide, by decide⟩

/-- C5 (amended): a phrase contributes nothing exactly when it contains
one of the six code tokens "no", "not", "don't", "dont", "never",
"hate" as a substring; every other phrase is scanned normally, and
"no tomatoes, 2 corn" still parses to exactly one pair (Corn, 2). -/
theorem C5_negation_handling :
    (∀ text : String, parseUserOrder text =
      ((splitOnPred isPunctChar (text.toList.map Char.toLower)).filter
        (fun p => !containsNegation p)).flatMap (fun p => scanWords (splitWsRuns p))) ∧
    (∀ phrase : List Char, containsNegation phrase = true ↔
      ∃ tok ∈ negationTokens, containsSub tok phrase = true) ∧
    parseUserOrder "no tomatoes, 2 corn" = [(VegetableType.Corn, 2)] ∧
    parseUserOrder "i dont want 2 corn" = [] := by
  refine ⟨?_, ?_, by decide, by decide⟩
  · intro text
    unfold parseUserOrder
    exact parse_fold_decomp _ []
  · intro phrase
    simp [containsNegation, List.any_eq_true]

/-- Every catalog type is in the catalog list. -/
theorem veg_mem : ∀ v : VegetableType, v ∈ VEGETABLES := by
  intro v
  cases v <;> decide

/-- Distinct catalog types have distinct lowercased names, also with a
trailing s on either side. -/
theorem vegLower_ne : ∀ u ∈ VEGETABLES, ∀ v ∈ VEGETABLES, u ≠ v →
    vegLowerChars u ≠ vegLowerChars v ∧
    vegLowerChars u ≠ vegLowerChars v ++ ['s'] ∧
    vegLowerChars u ++ ['s'] ≠ vegLowerChars v ∧
    vegLowerChars u ++ ['s'] ≠ vegLowerChars v ++ ['s'] := by decide

/-- `find?` returns the unique satisfying element. -/
theorem find?_eq_some_of_unique {α : Type} {p : α → Bool} :
    ∀ {l : List α} {v : α}, v ∈ l → p v = true → (∀ u ∈ l, p u = true → u = v) →
      l.find? p = some v
  | [], v, hv, _, _ => absurd hv (List.not_mem_nil v)
  | a :: t, v, hv, hp, huniq => by
    by_cases hpa : p a = true
    · rw [List.find?_cons_of_pos _ hpa]
      rw [huniq a (List.mem_cons_self _ _) hpa]
    · rw [List.find?_cons_of_neg _ hpa]
      rcases List.mem_cons.mp hv with rfl | hvt
      · exact absurd hp hpa
      · exact find?_eq_some_of_unique hvt hp
          (fun u hu hpu => huniq u (List.mem_cons_of_mem _ hu) hpu)

/-- The fuzzy-match fold yields no match exactly when it starts with no
match and every candidate's distance misses the running bound. -/
theorem fuzzy_fold_none (d : VegetableType → Nat) :
    ∀ (l : List VegetableType) (o : Option VegetableType) (m : Nat),
    (l.foldl (fun acc v => if d v < acc.2 then (some v, d v) else acc) (o, m)).1 = none ↔
      o = none ∧ ∀ v ∈ l, m ≤ d v
  | [], o, m => by simp
  | v :: l, o, m => by
    simp only [List.foldl_cons]
    by_cases hlt : d v < m
    · rw [if_pos hlt]
      constructor
      · intro h
        have := (fuzzy_fold_none d l (some v) (d v)).mp h
        exact absurd this.1 (by simp)
      · intro h
        exact absurd hlt (by have := h.2 v (List.mem_cons_self _ _); omega)
    · rw [if_neg hlt]
      rw [fuzzy_fold_none d l o m]
      constructor
      · intro h
        refine ⟨h.1, fun u hu => ?_⟩
        rcases List.mem_cons.mp hu with rfl | h2
        · omega
        · exact h.2 u h2
      · intro h
        exact ⟨h.1, fun u hu => h.2 u (List.mem_cons_of_mem _ hu)⟩

/-- C6 (confirmed): `findClosestVegetable` returns the type whose name
the word matches exactly (case-insensitively, with or without a
trailing s); it returns no match exactly when there is no exact match
and the minimum edit distance to every catalog name, in singular and
pluralized spelling, is at least 3; and "tomatoe" resolves to Tomato. -/
theorem C6_fuzzy_match_boundary :
    (∀ (w : List Char) (v : VegetableType),
      (vegLowerChars v = w.map Char.toLower ∨
        vegLowerChars v ++ ['s'] = w.map Char.toLower) →
      findClosestVegetable w = some v) ∧
    (∀ w : List Char, findClosestVegetable w = none ↔
      ((∀ v ∈ VEGETABLES, vegLowerChars v ≠ w.map Char.toLower ∧
          vegLowerChars v ++ ['s'] ≠ w.map Char.toLower) ∧
        (∀ v ∈ VEGETABLES,
          3 ≤ min (levenshteinDistance (vegLowerChars v) (w.map Char.toLower))
            (levenshteinDistance (vegLowerChars v ++ ['s']) (w.map Char.toLower))))) ∧
    findClosestVegetable "tomatoe".toList = some VegetableType.Tomato := by
  refine ⟨?_, ?_, by decide⟩
  · intro w v hexact
    simp only [findClosestVegetable]
    have hfind : VEGETABLES.find? (fun u => vegLowerChars u == w.map Char.toLower ||
        vegLowerChars u ++ ['s'] == w.map Char.toLower) = some v := by
      apply find?_eq_some_of_unique (veg_mem v)
      · simp only [Bool.or_eq_true, beq_iff_eq]
        exact hexact
      · intro u hu hpu
        simp only [Bool.or_eq_true, beq_iff_eq] at hpu
        by_contra hne
        have hfacts := vegLower_ne u hu v (veg_mem v) hne
        rcases hexact with h | h <;> rcases hpu with h2 | h2
        · exact hfacts.1 (h2.trans h.symm)
        · exact hfacts.2.2.1 (h2.trans h.symm)
        · exact hfacts.2.1 (h2.trans h.symm)
        · exact hfacts.2.2.2 (h2.trans h.symm)
    rw [hfind]
  · intro w
    simp only [findClosestVegetable]
    cases hfind : VEGETABLES.find? (fun u => vegLowerChars u == w.map Char.toLower ||
        vegLowerChars u ++ ['s'] == w.map Char.toLower) with
    | some u =>
      refine iff_of_false (by simp) ?_
      intro hno
      have hpu := List.find?_some hfind
      have humem := List.mem_of_find?_eq_some hfind
      simp only [Bool.or_eq_true, beq_iff_eq] at hpu
      rcases hpu with h | h
      · exact (hno.1 u humem).1 h
      · exact (hno.1 u humem).2 h
    | none =>
      dsimp only
      have hnoexact : ∀ v ∈ VEGETABLES,
          vegLowerChars v ≠ w.map Char.toLower ∧
          vegLowerChars v ++ ['s'] ≠ w.map Char.toLower := by
        intro v hv
        have hnp := List.find?_eq_none.mp hfind v hv
        simp only [Bool.or_eq_true, beq_iff_eq, not_or] at hnp
        exact hnp
      rw [fuzzy_fold_none (fun v =>
        min (levenshteinDistance (vegLowerChars v) (w.map Char.toLower))
          (levenshteinDistance (vegLowerChars v ++ ['s']) (w.map Char.toLower)))]
      constructor
      · intro h
        exact ⟨hnoexact, h.2⟩
      · intro h
        exact ⟨rfl, h.2⟩

/-- Witness for C6: exact and fuzzy matches at concrete words. -/
theorem C6_fuzzy_match_boundary_witness :
    findClosestVegetable "corn".toList = some VegetableType.Corn ∧
    findClosestVegetable "qqq".toList = none :=
  ⟨C6_fuzzy_match_boundary.1 "corn".toList VegetableType.Corn (Or.inl (by decide)),
   (C6_fuzzy_match_boundary.2.1 "qqq".toList).mpr ⟨by decide, by decide⟩⟩

/-!  ## The shortage workflow  -/

/-- The stock-validation fold, characterized over any accumulator. -/
theorem computeOrderSplit_go (inv : List VegetableBox) :
    ∀ (totals : List (VegetableType × Nat)) (acc : List VegetableType × List PendingItem),
    totals.foldl (fun acc tc =>
      let available := countInventory inv tc.1
      if tc.2 ≤ available then (acc.1 ++ List.replicate tc.2 tc.1, acc.2)
      else (acc.1, acc.2 ++ [{ type := tc.1, requested := tc.2, available := available }]))
      acc =
    (acc.1 ++ totals.flatMap (fun tc =>
        if tc.2 ≤ countInventory inv tc.1 then List.replicate tc.2 tc.1 else []),
      acc.2 ++ (totals.filter (fun tc => decide (countInventory inv tc.1 < tc.2))).map
        (fun tc => { type := tc.1, requested := tc.2, available := countInventory inv tc.1 }))
  | [], acc => by simp
  | tc :: ts, acc => by
    simp only [List.foldl_cons, List.flatMap_cons, List.filter_cons]
    by_cases hle : tc.2 ≤ countInventory inv tc.1
    · have hdec : decide (countInventory inv tc.1 < tc.2) = false := by
        simp only [decide_eq_false_iff_not]
        omega
      simp only [hle, if_true, hdec, Bool.false_eq_true, if_false]
      rw [computeOrderSplit_go inv ts _]
      simp [List.append_assoc]
    · have hdec : decide (countInventory inv tc.1 < tc.2) = true := by
        simp only [decide_eq_true_eq]
        omega
      simp only [hle, if_false, hdec, if_true]
      rw [computeOrderSplit_go inv ts _]
      simp [List.append_assoc]

/-- The two components of `computeOrderSplit`: satisfiable types expand
to unit entries, shortages become pending records. -/
theorem computeOrderSplit_spec (inv : List VegetableBox)
    (totals : List (VegetableType × Nat)) :
    (computeOrderSplit inv totals).1 = totals.flatMap (fun tc =>
      if tc.2 ≤ countInventory inv tc.1 then List.replicate tc.2 tc.1 else []) ∧
    (computeOrderSplit inv totals).2 =
      (totals.filter (fun tc => decide (countInventory inv tc.1 < tc.2))).map
        (fun tc => { type := tc.1, requested := tc.2, available := countInventory inv tc.1 }) := by
  unfold computeOrderSplit
  rw [computeOrderSplit_go inv totals ([], [])]
  simp

/-- The aggregation fold keeps its keys duplicate-free. -/
theorem aggregate_go_nodup : ∀ (l : List (VegetableType × Nat))
    (acc : List (VegetableType × Nat)), (acc.map Prod.fst).Nodup →
    ((l.foldl (fun acc tc =>
      if acc.any (fun p => p.1 == tc.1) then
        acc.map (fun p => if p.1 == tc.1 then (p.1, p.2 + tc.2) else p)
      else acc ++ [tc]) acc).map Prod.fst).Nodup
  | [], _, h => h
  | tc :: ts, acc, h => by
    simp only [List.foldl_cons]
    by_cases hany : (acc.any (fun p => p.1 == tc.1)) = true
    · rw [if_pos hany]
      apply aggregate_go_nodup ts
      have hkeys : (acc.map (fun p => if p.1 == tc.1 then (p.1, p.2 + tc.2) else p)).map
          Prod.fst = acc.map Prod.fst := by
        rw [List.map_map]
        apply List.map_congr_left
        intro p _
        dsimp only [Function.comp]
        split <;> rfl
      rw [hkeys]
      exact h
    · rw [if_neg hany]
      apply aggregate_go_nodup ts
      rw [List.map_append]
      refine List.Nodup.append h (by simp) ?_
      intro a ha hb
      simp only [List.map_cons, List.map_nil, List.mem_cons, List.not_mem_nil,
        or_false] at hb
      subst hb
      simp only [List.mem_map] at ha
      obtain ⟨p, hp, hpa⟩ := ha
      rw [List.any_eq_true] at hany
      push_neg at hany
      exact hany p hp (by rw [hpa]; exact beq_self_eq_true _)

/-- The aggregated totals have duplicate-free keys. -/
theorem aggregateTotals_keys_nodup (vo : List (VegetableType × Nat)) :
    ((aggregateTotals vo).map Prod.fst).Nodup := by
  unfold aggregateTotals
  exact aggregate_go_nodup vo [] (by simp)

/-- Counting over a list without the type yields zero. -/
theorem countVeg_eq_zero {l : List VegetableType} {t : VegetableType}
    (h : ∀ x ∈ l, x ≠ t) : countVeg l t = 0 := by
  unfold countVeg
  rw [List.length_eq_zero]
  rw [List.filter_eq_nil_iff]
  intro a ha
  simp only [beq_iff_eq]
  exact h a ha

/-- Counting distributes over append. -/
theorem countVeg_append (a b : List VegetableType) (t : VegetableType) :
    countVeg (a ++ b) t = countVeg a t + countVeg b t := by
  simp [countVeg, List.filter_append]

/-- Counting a replicate. -/
theorem countVeg_replicate (n : Nat) (t u : VegetableType) :
    countVeg (List.replicate n t) u = if t = u then n else 0 := by
  unfold countVeg
  by_cases h : t = u
  · subst h
    rw [if_pos rfl]
    rw [List.filter_eq_self.mpr (by intro a ha; simp [List.eq_of_mem_replicate ha])]
    exact List.length_replicate n t
  · rw [if_neg h]
    rw [List.length_eq_zero, List.filter_eq_nil_iff]
    intro a ha
    simp [List.eq_of_mem_replicate ha, h]

/-- A per-key expansion over keys other than `t` contributes no `t`. -/
theorem countVeg_flatMap_zero (g : VegetableType × Nat → List VegetableType)
    (t : VegetableType) : ∀ (totals : List (VegetableType × Nat)),
    (∀ tc ∈ totals, ∀ x ∈ g tc, x = tc.1) → (∀ tc ∈ totals, tc.1 ≠ t) →
    countVeg (totals.flatMap g) t = 0
  | [], _, _ => rfl
  | tc :: ts, hg, hne => by
    simp only [List.flatMap_cons, countVeg_append]
    rw [countVeg_eq_zero (fun x hx => by
      rw [hg tc (List.mem_cons_self _ _) x hx]
      exact hne tc (List.mem_cons_self _ _)),
      countVeg_flatMap_zero g t ts
        (fun u hu => hg u (List.mem_cons_of_mem _ hu))
        (fun u hu => hne u (List.mem_cons_of_mem _ hu))]

/-- With duplicate-free keys, the count of `t` in a per-key expansion is
the contribution of `t`'s own entry. -/
theorem countVeg_flatMap_unique (g : VegetableType × Nat → List VegetableType)
    (t : VegetableType) (req : Nat) : ∀ (totals : List (VegetableType × Nat)),
    (totals.map Prod.fst).Nodup → (t, req) ∈ totals →
    (∀ tc ∈ totals, ∀ x ∈ g tc, x = tc.1) →
    countVeg (totals.flatMap g) t = countVeg (g (t, req)) t
  | [], _, hmem, _ => absurd hmem (List.not_mem_nil _)
  | tc :: ts, hnd, hmem, hg => by
    simp only [List.flatMap_cons, countVeg_append]
    simp only [List.map_cons, List.nodup_cons] at hnd
    rcases List.mem_cons.mp hmem with rfl | hmem2
    · have hkey : t ∉ ts.map Prod.fst := by simpa using hnd.1
      rw [countVeg_flatMap_zero g t ts
        (fun u hu => hg u (List.mem_cons_of_mem _ hu))
        (fun u hu habs => hkey (habs ▸ List.mem_map_of_mem Prod.fst hu))]
      omega
    · have hne : tc.1 ≠ t := by
        intro habs
        apply hnd.1
        rw [habs]
        have hmm := List.mem_map_of_mem Prod.fst hmem2
        simpa using hmm
      rw [countVeg_eq_zero (fun x hx => by
        rw [hg tc (List.mem_cons_self _ _) x hx]
        exact hne)]
      rw [countVeg_flatMap_unique g t req ts hnd.2 hmem2
        (fun u hu => hg u (List.mem_cons_of_mem _ hu))]
      omega

/-- Shortage expansion over other types contributes nothing. -/
theorem countPend_flatMap_zero : ∀ (pending : List PendingItem) (t : VegetableType),
    (∀ q ∈ pending, q.type ≠ t) →
    countVeg (pending.flatMap (fun q => List.replicate q.available q.type)) t = 0
  | [], _, _ => rfl
  | q :: qs, t, hne => by
    simp only [List.flatMap_cons, countVeg_append]
    rw [countVeg_replicate, if_neg (hne q (List.mem_cons_self _ _)),
      countPend_flatMap_zero qs t (fun u hu => hne u (List.mem_cons_of_mem _ hu))]

/-- With duplicate-free shortage types, the PROCEED expansion enqueues
exactly `available` units of each shortage type. -/
theorem countPend_flatMap_unique : ∀ (pending : List PendingItem) (p : PendingItem),
    (pending.map (fun q => q.type)).Nodup → p ∈ pending →
    countVeg (pending.flatMap (fun q => List.replicate q.available q.type)) p.type =
      p.available
  | [], p, _, hmem => absurd hmem (List.not_mem_nil _)
  | q :: qs, p, hnd, hmem => by
    simp only [List.flatMap_cons, countVeg_append]
    simp only [List.map_cons, List.nodup_cons] at hnd
    rcases List.mem_cons.mp hmem with rfl | hmem2
    · rw [countVeg_replicate, if_pos rfl,
        countPend_flatMap_zero qs p.type (fun u hu habs => hnd.1 (by
          rw [← habs]
          exact List.mem_map_of_mem _ hu))]
      omega
    · have hne : q.type ≠ p.type := fun habs => hnd.1 (by
        rw [habs]
        exact List.mem_map_of_mem _ hmem2)
      rw [countVeg_replicate, if_neg hne,
        countPend_flatMap_unique qs p hnd.2 hmem2]
      omega

/-- The shortage path of `sendUserMessage`: the latch is set to the
shortage records, the inventory is untouched, and (when no robot is
idle, so that the scheduler cannot consume the queue) the satisfiable
unit entries are appended to the task queue. -/
theorem sendUserMessage_shortage (s : StoreState) (text : String)
    (hpend : s.pendingConfirmation = none)
    (hshort : (computeOrderSplit s.inventory (aggregateTotals (parseUserOrder text))).2 ≠ []) :
    (sendUserMessage text s).pendingConfirmation =
      some (computeOrderSplit s.inventory (aggregateTotals (parseUserOrder text))).2 ∧
    (sendUserMessage text s).inventory = s.inventory ∧
    ((∀ r ∈ s.robots, ¬ r.status = .IDLE) →
      (sendUserMessage text s).taskQueue =
        s.taskQueue ++ (computeOrderSplit s.inventory (aggregateTotals (parseUserOrder text))).1) := by
  have hvo : parseUserOrder text ≠ [] := by
    intro hnil
    apply hshort
    rw [hnil]
    rfl
  simp only [sendUserMessage, hpend]
  split
  next hlen =>
    exfalso
    rw [beq_iff_eq, List.length_eq_zero] at hlen
    exact hvo hlen
  next hlen =>
    split
    next hpc =>
      split
      next hvi =>
        refine ⟨?_, ?_, ?_⟩
        · dsimp only
          rw [(placeOrder_frame _ _).2.2.1]
          rfl
        · dsimp only
          rw [(placeOrder_frame _ _).1]
          rfl
        · intro hbusy
          exact placeOrder_taskQueue_busy _ _ (fun r hr => hbusy r hr)
      next hvi =>
        refine ⟨rfl, rfl, ?_⟩
        intro _
        have hvi2 : ¬ 0 < (computeOrderSplit s.inventory
            (aggregateTotals (parseUserOrder text))).1.length := hvi
        have hv0 : (computeOrderSplit s.inventory
            (aggregateTotals (parseUserOrder text))).1 = [] := by
          rw [← List.length_eq_zero]
          omega
        rw [hv0, List.append_nil]
        rfl
    next hpc =>
      exfalso
      apply hshort
      have hpc2 : ¬ 0 < (computeOrderSplit s.inventory
          (aggregateTotals (parseUserOrder text))).2.length := hpc
      rw [← List.length_eq_zero]
      omega

/-- The two resolutions of a pending confirmation: PROCEED enqueues the
per-type `available` expansion (queue equality stated when no robot is
idle) and clears the latch; SCRATCH changes neither queue nor inventory
and clears the latch. -/
theorem resolvePendingOrder_facts (sp : StoreState) (pending : List PendingItem)
    (hp : sp.pendingConfirmation = some pending) :
    (resolvePendingOrder .PROCEED sp).pendingConfirmation = none ∧
    (resolvePendingOrder .PROCEED sp).inventory = sp.inventory ∧
    ((∀ r ∈ sp.robots, ¬ r.status = .IDLE) →
      (resolvePendingOrder .PROCEED sp).taskQueue =
        sp.taskQueue ++ pending.flatMap (fun p => List.replicate p.available p.type)) ∧
    (resolvePendingOrder .SCRATCH sp).pendingConfirmation = none ∧
    (resolvePendingOrder .SCRATCH sp).inventory = sp.inventory ∧
    (resolvePendingOrder .SCRATCH sp).taskQueue = sp.taskQueue := by
  simp only [resolvePendingOrder, hp]
  refine ⟨by trivial, ?_, ?_, by trivial, by trivial, by trivial⟩
  · split
    · rw [(placeOrder_frame _ _).1]
    · rfl
  · intro hbusy
    split
    next hlen =>
      exact placeOrder_taskQueue_busy _ _ (fun r hr => hbusy r hr)
    next hlen =>
      have h0 : pending.flatMap (fun p => List.replicate p.available p.type) = [] := by
        rw [← List.length_eq_zero]
        omega
      rw [h0, List.append_nil]

/-- C3: the shortage flow. With no confirmation pending and at least one
aggregated request exceeding stock: the immediately-enqueued expansion
holds zero units of each shortage type and the full requested count of
each fully satisfiable type; `pendingConfirmation` is set to the
shortage records, each recording its stock as `available` (strictly
below `requested`); the inventory is untouched and (when no robot is
idle) the queue grows by exactly that expansion; the PROCEED expansion
holds exactly `available` units of each shortage type; and from any
state holding that latch, PROCEED clears the latch, keeps the
inventory, and (when no robot is idle) appends the PROCEED expansion,
while SCRATCH clears the latch leaving queue and inventory unchanged. -/
theorem C3_shortage_flow (s : StoreState) (text : String)
    (hpend : s.pendingConfirmation = none)
    (hshort : (computeOrderSplit s.inventory (aggregateTotals (parseUserOrder text))).2 ≠ []) :
    (∀ p ∈ (computeOrderSplit s.inventory (aggregateTotals (parseUserOrder text))).2,
      countVeg (computeOrderSplit s.inventory (aggregateTotals (parseUserOrder text))).1
        p.type = 0 ∧
      countInventory s.inventory p.type < p.requested ∧
      p.available = countInventory s.inventory p.type) ∧
    (∀ tc ∈ aggregateTotals (parseUserOrder text),
      tc.2 ≤ countInventory s.inventory tc.1 →
      countVeg (computeOrderSplit s.inventory (aggregateTotals (parseUserOrder text))).1
        tc.1 = tc.2) ∧
    (sendUserMessage text s).pendingConfirmation =
      some (computeOrderSplit s.inventory (aggregateTotals (parseUserOrder text))).2 ∧
    (sendUserMessage text s).inventory = s.inventory ∧
    ((∀ r ∈ s.robots, ¬ r.status = .IDLE) →
      (sendUserMessage text s).taskQueue =
        s.taskQueue ++ (computeOrderSplit s.inventory (aggregateTotals (parseUserOrder text))).1) ∧
    (∀ p ∈ (computeOrderSplit s.inventory (aggregateTotals (parseUserOrder text))).2,
      countVeg ((computeOrderSplit s.inventory
          (aggregateTotals (parseUserOrder text))).2.flatMap
        (fun q => List.replicate q.available q.type)) p.type = p.available) ∧
    (∀ sp : StoreState,
      sp.pendingConfirmation =
        some (computeOrderSplit s.inventory (aggregateTotals (parseUserOrder text))).2 →
      (resolvePendingOrder .PROCEED sp).pendingConfirmation = none ∧
      (resolvePendingOrder .PROCEED sp).inventory = sp.inventory ∧
      ((∀ r ∈ sp.robots, ¬ r.status = .IDLE) →
        (resolvePendingOrder .PROCEED sp).taskQueue = sp.taskQueue ++
          (computeOrderSplit s.inventory
              (aggregateTotals (parseUserOrder text))).2.flatMap
            (fun q => List.replicate q.available q.type)) ∧
      (resolvePendingOrder .SCRATCH sp).pendingConfirmation = none ∧
      (resolvePendingOrder .SCRATCH sp).inventory = sp.inventory ∧
      (resolvePendingOrder .SCRATCH sp).taskQueue = sp.taskQueue) := by
  have hsp := computeOrderSplit_spec s.inventory (aggregateTotals (parseUserOrder text))
  have hnd := aggregateTotals_keys_nodup (parseUserOrder text)
  have hgp : ∀ tc ∈ aggregateTotals (parseUserOrder text),
      ∀ x ∈ (if tc.2 ≤ countInventory s.inventory tc.1 then
        List.replicate tc.2 tc.1 else ([] : List VegetableType)), x = tc.1 := by
    intro tc _ x hx
    split at hx
    · exact List.eq_of_mem_replicate hx
    · exact absurd hx (List.not_mem_nil x)
  have hnd2 : ((computeOrderSplit s.inventory
      (aggregateTotals (parseUserOrder text))).2.map (fun q => q.type)).Nodup := by
    rw [hsp.2, List.map_map]
    have hmapeq : (((aggregateTotals (parseUserOrder text)).filter
        (fun tc => decide (countInventory s.inventory tc.1 < tc.2))).map
        ((fun q : PendingItem => q.type) ∘ (fun tc =>
          { type := tc.1, requested := tc.2, available := countInventory s.inventory tc.1 }))) =
        (((aggregateTotals (parseUserOrder text)).filter
        (fun tc => decide (countInventory s.inventory tc.1 < tc.2))).map Prod.fst) := by
      apply List.map_congr_left
      intro a _
      rfl
    rw [hmapeq]
    exact List.Nodup.sublist (List.Sublist.map Prod.fst (List.filter_sublist _)) hnd
  refine ⟨?_, ?_, ?_, ?_, ?_, ?_, ?_⟩
  · intro p hp
    rw [hsp.2] at hp
    obtain ⟨tc, htcf, htcp⟩ := List.mem_map.mp hp
    have htc : tc ∈ aggregateTotals (parseUserOrder text) := (List.mem_filter.mp htcf).1
    have hlt : countInventory s.inventory tc.1 < tc.2 :=
      of_decide_eq_true ((List.mem_filter.mp htcf).2)
    subst htcp
    dsimp only
    refine ⟨?_, hlt, rfl⟩
    rw [hsp.1]
    rw [countVeg_flatMap_unique _ tc.1 tc.2 _ hnd (by rw [Prod.mk.eta]; exact htc) hgp]
    dsimp only
    rw [if_neg (by omega)]
    rfl
  · intro tc htc hle
    rw [hsp.1]
    rw [countVeg_flatMap_unique _ tc.1 tc.2 _ hnd (by rw [Prod.mk.eta]; exact htc) hgp]
    dsimp only
    rw [if_pos hle, countVeg_replicate, if_pos rfl]
  · exact (sendUserMessage_shortage s text hpend hshort).1
  · exact (sendUserMessage_shortage s text hpend hshort).2.1
  · exact (sendUserMessage_shortage s text hpend hshort).2.2
  · intro p hp
    exact countPend_flatMap_unique _ p hnd2 hp
  · intro sp hsp2
    exact resolvePendingOrder_facts sp _ hsp2

/-- C3 witness: in a full-inventory state with all robots busy and no
pending confirmation, the message "i want 15 tomatoes" (10 in stock)
produces a nonempty shortage list, and the latch is set to it. -/
theorem C3_shortage_flow_witness :
    sC3.pendingConfirmation = none ∧
    (computeOrderSplit sC3.inventory
      (aggregateTotals (parseUserOrder "i want 15 tomatoes"))).2 ≠ [] ∧
    (sendUserMessage "i want 15 tomatoes" sC3).pendingConfirmation =
      some (computeOrderSplit sC3.inventory
        (aggregateTotals (parseUserOrder "i want 15 tomatoes"))).2 :=
  ⟨by decide, by decide,
    (C3_shortage_flow sC3 "i want 15 tomatoes" (by decide) (by decide)).2.2.1⟩
